import Mathlib

/-!
Verification of the caddy-tui configuration reconciliation engine.

Shallow embedding of the Python sources:
  * caddy_tui/caddyfile_parser.py  (Block Segmenter)
  * caddy_tui/json_normalizer.py   (JSON Route Normalizer)
  * caddy_tui/snapshots.py         (Structural Digest Engine)
  * caddy_tui/live_renderer.py     (Route Renderer)
  * caddy_tui/tui_app.py           (Token Matcher)

Text is modelled as List Char; Python dicts of JSON data as association
lists in insertion order; functions that can raise are modelled in Option
(none = the Python call raises / signals the corresponding error).
-/

namespace CaddyTui

/-! ### Block Segmenter (caddyfile_parser.py) -/

/-- The two brace characters, written via code points so that no literal
brace appears inside a character literal. -/
def braceOpen : Char := Char.ofNat 123

def braceClose : Char := Char.ofNat 125

/-- Characters treated as whitespace by the segmenter's
_consume_ws_and_comments (the Python code tests membership in " \t\r\n"). -/
def isWsChar (c : Char) : Bool :=
  c = ' ' || c = '\t' || c = '\r' || c = '\n'

structure ParsedFragment where
  kind : String
  content : List Char
  deriving DecidableEq

structure ParsedBlock where
  labels : List String
  is_global : Bool
  raw_prelude : List Char
  raw_postlude : List Char
  fragments : List ParsedFragment
  deriving DecidableEq

structure ParsedConfig where
  blocks : List ParsedBlock
  deriving DecidableEq

mutual

/-- _consume_ws_and_comments: returns (consumed text, remainder).  The Python
loop alternates between whitespace runs and #-led comment lines; here the
comment mode is the mutually recursive consumeComment. -/
def consumeWsAndComments : List Char → List Char × List Char
  | [] => ([], [])
  | c :: rest =>
    if isWsChar c then
      let r := consumeWsAndComments rest
      (c :: r.1, r.2)
    else if c = '#' then
      let r := consumeComment rest
      (c :: r.1, r.2)
    else ([], c :: rest)

/-- The comment branch of _consume_ws_and_comments: consume up to and
including the next newline (or everything, at end of input), then resume
the whitespace/comment loop. -/
def consumeComment : List Char → List Char × List Char
  | [] => ([], [])
  | c :: rest =>
    if c = '\n' then
      let r := consumeWsAndComments rest
      (c :: r.1, r.2)
    else
      let r := consumeComment rest
      (c :: r.1, r.2)

end

/-- A run of text that _consume_ws_and_comments consumes entirely:
whitespace and #-led comment lines only (the "filler" between blocks). -/
def IsFiller (l : List Char) : Prop := consumeWsAndComments l = (l, [])

/-- text.find (of the opening brace) in parse_caddyfile_text: split the text
at the first opening brace; none when there is no brace.  The remainder
starts with the brace itself. -/
def splitAtBrace : List Char → Option (List Char × List Char)
  | [] => none
  | c :: rest =>
    if c = braceOpen then some ([], c :: rest)
    else
      match splitAtBrace rest with
      | none => none
      | some (b, r) => some (c :: b, r)

/-- _find_matching_brace, phrased on the text following the opening brace
with the running depth as argument (the Python scan starts at the opening
brace with depth 0 and immediately increments; calls here start at depth 1).
Returns (body, remainder starting at the matching closing brace). -/
def matchBrace : List Char → Nat → Option (List Char × List Char)
  | [], _ => none
  | c :: rest, depth =>
    if c = braceOpen then
      match matchBrace rest (depth + 1) with
      | some (b, r) => some (c :: b, r)
      | none => none
    else if c = braceClose then
      if depth = 1 then some ([], c :: rest)
      else
        match matchBrace rest (depth - 1) with
        | some (b, r) => some (c :: b, r)
        | none => none
    else
      match matchBrace rest depth with
      | some (b, r) => some (c :: b, r)
      | none => none

/-- Python str.split() whitespace set (after the parser replaced newlines by
spaces only space and tab etc. remain relevant, but keep the full set). -/
def isPySpace (c : Char) : Bool :=
  c = ' ' || c = '\t' || c = '\n' || c = '\r' || c = '\x0b' || c = '\x0c'

/-- Python str.split() with no separator: maximal runs of non-whitespace. -/
def splitWsAux : List Char → List Char → List (List Char)
  | [], acc => if acc.isEmpty then [] else [acc.reverse]
  | c :: rest, acc =>
    if isPySpace c then
      if acc.isEmpty then splitWsAux rest []
      else acc.reverse :: splitWsAux rest []
    else splitWsAux rest (c :: acc)

/-- Python str.split(",") : split at every comma, keeping empty pieces. -/
def splitCommaAux : List Char → List Char → List (List Char)
  | [], acc => [acc.reverse]
  | c :: rest, acc =>
    if c = ',' then acc.reverse :: splitCommaAux rest []
    else splitCommaAux rest (c :: acc)

/-- Python str.strip(). -/
def stripList (l : List Char) : List Char :=
  ((l.dropWhile isPySpace).reverse.dropWhile isPySpace).reverse

/-- _split_labels: replace newlines by spaces, split on whitespace, split
each part on commas, strip, drop empties. -/
def splitLabels (header : List Char) : List String :=
  let cleaned := header.map fun c => if c = '\n' then ' ' else c
  (splitWsAux cleaned []).flatMap fun part =>
    (splitCommaAux part []).filterMap fun chunk =>
      let v := stripList chunk
      if v.isEmpty then none else some (String.mk v)

/-- The while loop of parse_caddyfile_text.  Arguments: fuel (bounds the
number of loop iterations; each iteration consumes at least the two brace
characters, so length text + 1 always suffices), the unread text at the
current position, and pending_ws.  Returns the blocks produced from here on
together with the final pending_ws; none models CaddyfileParseError. -/
def parseLoop : Nat → List Char → List Char → Option (List ParsedBlock × List Char)
  | 0, _, _ => none
  | fuel + 1, text, pending =>
    match splitAtBrace text with
    | none => some ([], pending ++ text)
    | some (header, braceRest) =>
      match braceRest with
      | [] => none
      | brace :: afterBrace =>
        match matchBrace afterBrace 1 with
        | none => none
        | some (body, closeRest) =>
          match closeRest with
          | [] => none
          | closeCh :: tail =>
            let labels := splitLabels header
            let block : ParsedBlock :=
              { labels := labels
                is_global := labels.isEmpty
                raw_prelude := pending
                raw_postlude := []
                fragments :=
                  [ { kind := "header", content := header ++ [brace] },
                    { kind := "body", content := body },
                    { kind := "footer", content := [closeCh] } ] }
            match parseLoop fuel (consumeWsAndComments tail).2 (consumeWsAndComments tail).1 with
            | none => none
            | some (blocks, trailing) => some (block :: blocks, trailing)

/-- blocks[-1].raw_postlude = pending_ws at the end of parse_caddyfile_text. -/
def setLastPostlude : List ParsedBlock → List Char → List ParsedBlock
  | [], _ => []
  | [b], p => [{ b with raw_postlude := p }]
  | b :: rest, p => b :: setLastPostlude rest p

/-- parse_caddyfile_text.  none models a raised CaddyfileParseError. -/
def parseCaddyfileText (text : List Char) : Option ParsedConfig :=
  let leading := consumeWsAndComments text
  match parseLoop (text.length + 1) leading.2 leading.1 with
  | none => none
  | some (blocks, pending) =>
    if blocks.isEmpty then
      if pending.isEmpty then some { blocks := [] }
      else
        some { blocks :=
          [ { labels := []
              is_global := true
              raw_prelude := []
              raw_postlude := pending
              fragments := [] } ] }
    else some { blocks := setLastPostlude blocks pending }

/-- render_snapshot_text (snapshots.py) restricted to a parsed text config:
prelude, then the fragment contents in order, then the postlude, for every
block in block order. -/
def renderParsedBlock (b : ParsedBlock) : List Char :=
  b.raw_prelude ++ (b.fragments.flatMap ParsedFragment.content) ++ b.raw_postlude

def renderParsedConfig (cfg : ParsedConfig) : List Char :=
  cfg.blocks.flatMap renderParsedBlock

/-- Brace-depth walk over a text: every brace character counts (also inside
comments).  none when a closing brace appears at depth 0. -/
def depthWalk : List Char → Nat → Option Nat
  | [], d => some d
  | c :: rest, d =>
    if c = braceOpen then depthWalk rest (d + 1)
    else if c = braceClose then
      if d = 0 then none else depthWalk rest (d - 1)
    else depthWalk rest d

/-- Balanced braces: the depth walk never goes negative and ends at 0. -/
def bracesBalanced (text : List Char) : Prop := depthWalk text 0 = some 0

instance (text : List Char) : Decidable (bracesBalanced text) := by
  unfold bracesBalanced; infer_instance

/-! ### JSON values

Python JSON data (nested dicts/lists/strings/numbers/booleans/None) is
modelled by JVal.  Dicts become association lists in insertion order with
unique keys in practice; numbers are restricted to integers, which covers
every numeric field the engine inspects (status codes, ports). -/

inductive JVal where
  | null
  | bool (b : Bool)
  | int (n : Int)
  | str (s : String)
  | arr (items : List JVal)
  | obj (fields : List (String × JVal))

/-- Python dict.get on an object's fields (first binding wins). -/
def jGet (fields : List (String × JVal)) (k : String) : Option JVal :=
  match fields with
  | [] => none
  | (k2, v) :: rest => if k2 = k then some v else jGet rest k

/-- node.get("handler") == "file_server" (snapshots.py). -/
def isFileServer (fields : List (String × JVal)) : Bool :=
  match jGet fields "handler" with
  | some (.str s) => s == "file_server"
  | _ => false

/-- Python truthiness of a JSON value. -/
def jTruthy : JVal → Bool
  | .null => false
  | .bool b => b
  | .int n => n != 0
  | .str s => s ≠ ""
  | .arr items => !items.isEmpty
  | .obj fields => !fields.isEmpty

/-- Python v.get(k) where v may not be a dict: none models the
AttributeError raised on non-dict values; some (jGet ..) is the lookup. -/
def pyGet : JVal → String → Option (Option JVal)
  | .obj fields, k => some (jGet fields k)
  | _, _ => none

/-- Python iteration (for x in v): lists yield items, strings yield their
characters as one-character strings, dicts yield their keys; iterating
None/bool/int raises (none). -/
def pyIter : JVal → Option (List JVal)
  | .str s => some (s.data.map fun c => JVal.str (String.mk [c]))
  | .arr items => some items
  | .obj fields => some (fields.map fun kv => JVal.str kv.1)
  | _ => none

/-- Python str() of a JSON value.  Scalars are rendered exactly as Python
does; container rendering is a stand-in (no claim inspects str() of a
container). -/
def pyStr : JVal → String
  | .null => "None"
  | .bool b => if b then "True" else "False"
  | .int n => toString n
  | .str s => s
  | .arr _ => "[...]"
  | .obj _ => "\x7b...\x7d"

/-- Minimal JSON string escaping (backslash, quote and the control
characters the configuration texts use), standing in for json.dumps
escaping with ensure_ascii=False. -/
def jsonEscapeChar (c : Char) : String :=
  if c = '"' then "\\\""
  else if c = '\\' then "\\\\"
  else if c = '\n' then "\\n"
  else if c = '\t' then "\\t"
  else if c = '\r' then "\\r"
  else String.mk [c]

def jsonQuote (s : String) : String :=
  "\"" ++ String.join (s.data.map jsonEscapeChar) ++ "\""

/-- Stable insertion sort (stands in for Python's stable sorted()): x is
placed after every strictly smaller element and before equal ones already
present. -/
def insertSorted (lt : α → α → Bool) (x : α) : List α → List α
  | [] => [x]
  | y :: rest => if lt y x then y :: insertSorted lt x rest else x :: y :: rest

def sortByLt (lt : α → α → Bool) : List α → List α
  | [] => []
  | x :: rest => insertSorted lt x (sortByLt lt rest)

mutual

/-- json.dumps(v, sort_keys=True, separators=(",", ":")) — the canonical
serialisation the digest engine hashes.  Sorting the rendered key/value
pairs by key equals sorting the fields by key first, since the sort key is
the field name alone. -/
def dumps : JVal → String
  | .null => "null"
  | .bool b => if b then "true" else "false"
  | .int n => toString n
  | .str s => jsonQuote s
  | .arr items => "[" ++ String.intercalate "," (dumpsItems items) ++ "]"
  | .obj fields =>
      let sorted := sortByLt (fun a b => a.1 < b.1) (dumpsFields fields)
      "\x7b" ++
        String.intercalate "," (sorted.map fun kv => jsonQuote kv.1 ++ ":" ++ kv.2) ++
        "\x7d"

def dumpsItems : List JVal → List String
  | [] => []
  | v :: rest => dumps v :: dumpsItems rest

def dumpsFields : List (String × JVal) → List (String × String)
  | [] => []
  | kv :: rest => (kv.1, dumps kv.2) :: dumpsFields rest

end

/-! ### Structural digest scrubbing (snapshots.py) -/

def CADDYFILE_HIDE_SENTINEL : String := "__caddyfile__"

/-- _normalize_string_values: None yields []; a nonempty string yields
itself; an iterable keeps its nonempty string entries (iterating a dict
yields its keys); non-iterables yield []. -/
def normalizeStringValues : JVal → List String
  | .null => []
  | .str s => if s = "" then [] else [s]
  | .arr items =>
      items.filterMap fun v =>
        match v with
        | .str s => if s = "" then none else some s
        | _ => none
  | .obj fields => fields.filterMap fun kv => if kv.1 = "" then none else some kv.1
  | _ => []

/-- The hide-list rewrite of _scrub_file_server_hide for one object: when
the object is a file_server handler with a nonempty normalised hide list,
the list that Python assigns to node["hide"] before recursing (entries
equal to a scrub path become the sentinel). -/
def hideReplacement (scrub : List String) (fields : List (String × JVal)) : Option JVal :=
  if isFileServer fields then
    match jGet fields "hide" with
    | none => none
    | some hv =>
      let entries := normalizeStringValues hv
      if entries.isEmpty then none
      else
        some (JVal.arr (entries.map fun e =>
          JVal.str (if scrub.contains e then CADDYFILE_HIDE_SENTINEL else e)))
  else none

mutual

/-- _scrub_file_server_hide as a pure function.  Python assigns the
replacement list (plain strings) into the dict and then recurses over all
values; recursing into a list of plain strings is the identity, so the
replacement is emitted directly and recursion proceeds on the other
values.  The scrub-paths-nonempty guard lives in normaliseJsonFragment. -/
def scrubHide (scrub : List String) : JVal → JVal
  | .obj fields => JVal.obj (scrubFields scrub (hideReplacement scrub fields) fields)
  | .arr items => JVal.arr (scrubItems scrub items)
  | v => v

def scrubItems (scrub : List String) : List JVal → List JVal
  | [] => []
  | v :: rest => scrubHide scrub v :: scrubItems scrub rest

def scrubFields (scrub : List String) (rh : Option JVal) :
    List (String × JVal) → List (String × JVal)
  | [] => []
  | kv :: rest =>
      (kv.1,
        if kv.1 = "hide" then
          match rh with
          | some nv => nv
          | none => scrubHide scrub kv.2
        else scrubHide scrub kv.2) :: scrubFields scrub rh rest

end

/-- _normalise_json_fragment on an already-parsed payload: scrub (when any
scrub paths are present) and re-serialise with sorted keys and compact
separators.  (json.loads of a fragment produced by json.dumps returns the
original value, so the string round-trip is elided; a fragment that fails
to decode is handled at the call sites.) -/
def normaliseJsonFragment (scrub : List String) (j : JVal) : String :=
  dumps (if scrub.isEmpty then j else scrubHide scrub j)

/-- The payload transformation quantified over by the path-scrubbing claim:
the same payload with every file_server hide entry equal to the first
snapshot's own path (old) replaced by the second snapshot's own path (new).
The hide list is normalised exactly as the scrubber normalises it. -/
def substReplacement (old new : String) (fields : List (String × JVal)) : Option JVal :=
  if isFileServer fields then
    match jGet fields "hide" with
    | none => none
    | some hv =>
      let entries := normalizeStringValues hv
      if entries.isEmpty then none
      else
        some (JVal.arr (entries.map fun e => JVal.str (if e = old then new else e)))
  else none

mutual

def substOwn (old new : String) : JVal → JVal
  | .obj fields => JVal.obj (substFields old new (substReplacement old new fields) fields)
  | .arr items => JVal.arr (substItems old new items)
  | v => v

def substItems (old new : String) : List JVal → List JVal
  | [] => []
  | v :: rest => substOwn old new v :: substItems old new rest

def substFields (old new : String) (rh : Option JVal) :
    List (String × JVal) → List (String × JVal)
  | [] => []
  | kv :: rest =>
      (kv.1,
        if kv.1 = "hide" then
          match rh with
          | some nv => nv
          | none => substOwn old new kv.2
        else substOwn old new kv.2) :: substFields old new rh rest

end

mutual

/-- Whether p occurs among the normalised hide entries of some file_server
handler object anywhere in the value (the side condition that makes the
two payloads of the path-scrubbing claim "otherwise identical": the second
snapshot's path must not already appear as a foreign hide entry of the
first payload). -/
def hideMentions (p : String) : JVal → Bool
  | .obj fields =>
      (if isFileServer fields then
        match jGet fields "hide" with
        | none => false
        | some hv => (normalizeStringValues hv).contains p
      else false)
      || hideMentionsFields p fields
  | .arr items => hideMentionsItems p items
  | _ => false

def hideMentionsItems (p : String) : List JVal → Bool
  | [] => false
  | v :: rest => hideMentions p v || hideMentionsItems p rest

def hideMentionsFields (p : String) : List (String × JVal) → Bool
  | [] => false
  | kv :: rest => hideMentions p kv.2 || hideMentionsFields p rest

end

/-- A concrete file_server route payload whose hide list names the
snapshot's own backing path (used to instantiate the path-scrubbing
claim). -/
def c4Payload (ownPath : String) : JVal :=
  JVal.obj
    [ ("handle", JVal.arr
        [ JVal.obj
            [ ("handler", JVal.str "file_server"),
              ("hide", JVal.arr [JVal.str ownPath]),
              ("root", JVal.str "/srv/site") ] ]),
      ("terminal", JVal.bool true) ]

/-! ### JSON Route Normalizer (json_normalizer.py)

Option models Python exceptions: none is a raised AttributeError/TypeError,
some is normal completion.  "x or y" on JSON values keeps x when truthy. -/

/-- Python "value or default" where absence (dict.get -> None) is null. -/
def jOrElse (v : Option JVal) (default : JVal) : JVal :=
  let w := v.getD JVal.null
  if jTruthy w then w else default

/-- _dedupe_preserve_order. -/
def dedupeAux (seen : List String) : List String → List String
  | [] => []
  | x :: rest =>
    if seen.contains x then dedupeAux seen rest
    else x :: dedupeAux (x :: seen) rest

def dedupePreserveOrder (items : List String) : List String := dedupeAux [] items

/-- _extract_hosts: matcher.get("host") or matcher.get("hosts") or [], then
str() of each truthy entry; crashes (none) when the matcher is not a dict
or the host value is a truthy non-iterable. -/
def extractHosts (matcher : JVal) : Option (List String) :=
  match matcher with
  | .obj fields =>
    let hosts := jOrElse (jGet fields "host")
      (jOrElse (jGet fields "hosts") (JVal.arr []))
    match pyIter hosts with
    | none => none
    | some items =>
      some (items.filterMap fun h => if jTruthy h then some (pyStr h) else none)
  | _ => none

/-- _prefix_list: None yields []; a string wraps into a one-element list; a
non-iterable yields [] (the guard rail); otherwise each truthy entry is
formatted as prefix:value. -/
def prefixList (values : JVal) (px : String) : List String :=
  match values with
  | .null => []
  | .str s => if s = "" then [] else [px ++ ":" ++ s]
  | .arr items =>
      items.filterMap fun v => if jTruthy v then some (px ++ ":" ++ pyStr v) else none
  | .obj fields =>
      fields.filterMap fun kv => if kv.1 = "" then none else some (px ++ ":" ++ kv.1)
  | _ => []

/-- _labels_for_route.  server is the (dict) server object; route may be
anything found in the routes iteration. -/
def labelsForRoute (serverName : String) (server : List (String × JVal))
    (route : JVal) (index : Nat) : Option (List String) :=
  match route with
  | .obj rfields =>
    let matchers := jOrElse (jGet rfields "match") (JVal.arr [])
    match pyIter matchers with
    | none => none
    | some ms =>
      let step := ms.foldl
        (fun (acc : Option (List String)) matcher =>
          match acc with
          | none => none
          | some labels =>
            match extractHosts matcher with
            | none => none
            | some hosts =>
              match matcher with
              | .obj mf =>
                some (labels ++ hosts
                  ++ prefixList ((jGet mf "path").getD JVal.null) "path"
                  ++ prefixList ((jGet mf "paths").getD JVal.null) "path"
                  ++ prefixList ((jGet mf "method").getD JVal.null) "method"
                  ++ prefixList ((jGet mf "methods").getD JVal.null) "method")
              | _ => none)
        (some [])
      match step with
      | none => none
      | some labels0 =>
        if labels0.isEmpty then
          let listeners := jOrElse (jGet server "listen") (JVal.arr [])
          match pyIter listeners with
          | none => none
          | some ls =>
            let labels1 := ls.filterMap fun v => if jTruthy v then some (pyStr v) else none
            if labels1.isEmpty then
              some (dedupePreserveOrder [serverName ++ "::route" ++ toString index])
            else some (dedupePreserveOrder labels1)
        else some (dedupePreserveOrder labels0)
  | _ => none

/-- One normalized route block: prelude comment records server and route
index; the single fragment carries the serialised route payload (the
sorted-key serialisation stands in for json.dumps(..., indent=2): the
pretty-printing whitespace is immaterial to every claim). -/
def mkRouteBlock (serverName : String) (index : Nat) (labels : List String)
    (route : JVal) : ParsedBlock :=
  { labels := labels
    is_global := labels.isEmpty
    raw_prelude := ("# server: " ++ serverName ++ " route: " ++ toString index ++ "\n").toList
    raw_postlude := []
    fragments := [{ kind := "json_route", content := (dumps route).toList }] }

def routeBlocksLoop (serverName : String) (server : List (String × JVal)) :
    Nat → List JVal → Option (List ParsedBlock)
  | _, [] => some []
  | index, route :: rest =>
    match labelsForRoute serverName server route index with
    | none => none
    | some labels =>
      match routeBlocksLoop serverName server (index + 1) rest with
      | none => none
      | some blocks => some (mkRouteBlock serverName index labels route :: blocks)

def serverBlocksLoop (servers : List (String × JVal)) :
    List String → Option (List ParsedBlock)
  | [] => some []
  | name :: rest =>
    let serverV := jOrElse (jGet servers name) (JVal.obj [])
    match serverV with
    | .obj svf =>
      let routes := jOrElse (jGet svf "routes") (JVal.arr [])
      match pyIter routes with
      | none => none
      | some rs =>
        match routeBlocksLoop name svf 0 rs with
        | none => none
        | some blocks =>
          match serverBlocksLoop servers rest with
          | none => none
          | some more => some (blocks ++ more)
    | _ => none

/-- blocks_from_caddy_json on an already-parsed document. -/
def blocksFromCaddyJson (data : JVal) : Option (List ParsedBlock) :=
  match data with
  | .obj dfields =>
    let appsFields :=
      match jGet dfields "apps" with
      | some (.obj af) => af
      | _ => []
    let httpApp := (jGet appsFields "http").getD (JVal.obj [])
    match httpApp with
    | .obj hf =>
      let servers :=
        match jGet hf "servers" with
        | some (.obj sf) => sf
        | _ => []
      let names := sortByLt (fun a b => a < b) (servers.map Prod.fst)
      match serverBlocksLoop servers names with
      | none => none
      | some blocks =>
        if blocks.isEmpty then
          some [ { labels := []
                   is_global := true
                   raw_prelude := []
                   raw_postlude := []
                   fragments := [{ kind := "json_config", content := (dumps data).toList }] } ]
        else some blocks
    | _ => none
  | _ => none

/-! ### Route Renderer: static response (live_renderer.py) -/

def REDIRECT_CODES : List Int := [301, 302, 303, 307, 308]

def pyLower (s : String) : String := String.mk (s.data.map Char.toLower)

/-- _string_list (live_renderer.py): None yields []; a string is wrapped
whole (even when empty); an iterable keeps its nonempty string entries
(iterating a dict yields its keys); anything else yields []. -/
def stringList : JVal → List String
  | .null => []
  | .str s => [s]
  | .arr items =>
      items.filterMap fun v =>
        match v with
        | .str s => if s = "" then none else some s
        | _ => none
  | .obj fields => fields.filterMap fun kv => if kv.1 = "" then none else some kv.1
  | _ => []

/-- _first_header_value: headers.get(key) or headers.get(key.lower()); a
nonempty string wins outright, otherwise the first nonempty string of an
iterable; None otherwise. -/
def firstHeaderValue (headers : List (String × JVal)) (key : String) : Option String :=
  let candidates := jOrElse (jGet headers key) ((jGet headers (pyLower key)).getD JVal.null)
  match candidates with
  | .str s => if s = "" then none else some s
  | .arr items =>
      items.findSome? fun v =>
        match v with
        | .str s => if s = "" then none else some s
        | _ => none
  | .obj fields => fields.findSome? fun kv => if kv.1 = "" then none else some kv.1
  | _ => none

/-- _quote. -/
def pyQuote (value : String) : String :=
  "\"" ++ String.join (value.data.map fun c => if c = '"' then "\\\"" else String.mk [c]) ++ "\""

/-- _indent. -/
def indentStr (width : Nat) : String := String.mk (List.replicate width ' ')

/-- Python " ".join. -/
def joinPieces : List String → String
  | [] => ""
  | [x] => x
  | x :: y :: rest => x ++ " " ++ joinPieces (y :: rest)

/-- The generic respond line of _render_static_response: "respond", then
the quoted body when truthy, then the status code when truthy. -/
def respondLine (body statusCode : JVal) (indent : Nat) : String :=
  indentStr indent ++ joinPieces
    (["respond"]
      ++ (if jTruthy body then [pyQuote (pyStr body)] else [])
      ++ (if jTruthy statusCode then [pyStr statusCode] else []))

/-- _render_static_response.  none models the AttributeError Python raises
when a truthy non-dict headers value reaches _first_header_value. -/
def renderStaticResponse (entry : List (String × JVal)) (indent : Nat) :
    Option (List String) :=
  let headersV := jOrElse (jGet entry "headers") (JVal.obj [])
  match headersV with
  | .obj hfields =>
    let location := firstHeaderValue hfields "Location"
    let statusCode := (jGet entry "status_code").getD JVal.null
    let body := jOrElse (jGet entry "body") ((jGet entry "content").getD JVal.null)
    match location, statusCode with
    | some loc, .int code =>
      if REDIRECT_CODES.contains code && !jTruthy body then
        some [indentStr indent ++ "redir " ++ loc ++ " " ++ toString code]
      else some [respondLine body statusCode indent]
    | _, _ => some [respondLine body statusCode indent]
  | _ => none

/-- A static-response handler entry carrying only a Location header and a
308 status (instantiates the redirect-collapsing claim). -/
def c6Entry : List (String × JVal) :=
  [ ("handler", JVal.str "static_response"),
    ("headers", JVal.obj [("Location", JVal.arr [JVal.str "https://example.com/"])]),
    ("status_code", JVal.int 308) ]

/-! ### Token Matcher (tui_app.py)

Scores are modelled in ℚ: _token_overlap_score computes matches /
len(source_tokens) as a Python float, and for the list sizes the matcher
handles the float value and its comparisons agree with the exact rational.
The token set of a block is modelled as its first-seen-order deduplicated
list: membership count and size agree with the Python set. -/

structure SnapshotBlockText where
  block_index : Nat
  text : String
  key : List String
  handles : List String
  handlers : List String
  hosts : List String
  roots : List String
  paths : List String
  groups : List String
  encodings : List String
  locations : List String
  dials : List String
  status_codes : List String
  route_payloads : List String
  deriving DecidableEq

def stripString (s : String) : String := String.mk (stripList s.data)

/-- General separator join (Python sep.join). -/
def joinSep (sep : String) : List String → String
  | [] => ""
  | [x] => x
  | x :: y :: rest => x ++ sep ++ joinSep sep (y :: rest)

def seqStartsWith : List Char → List Char → Bool
  | [], _ => true
  | _ :: _, [] => false
  | p :: ps, t :: ts => p == t && seqStartsWith ps ts

def seqContainsAux (pat : List Char) : List Char → Bool
  | [] => pat.isEmpty
  | c :: rest => seqStartsWith pat (c :: rest) || seqContainsAux pat rest

/-- Python "needle in haystack" substring containment. -/
def strContains (haystack needle : String) : Bool :=
  seqContainsAux needle.data haystack.data

/-- The field traversal shared by _block_tokens and _block_search_blob:
each value trimmed and lowered, empties dropped, in field order. -/
def blockTokenValues (b : SnapshotBlockText) : List String :=
  (b.hosts ++ b.paths ++ b.groups ++ b.roots ++ b.dials ++ b.locations
      ++ b.encodings ++ b.status_codes ++ b.handlers ++ b.key).filterMap fun v =>
    let t := pyLower (stripString v)
    if t = "" then none else some t

/-- _block_tokens (as the deduplicated token list standing for the set). -/
def blockTokens (b : SnapshotBlockText) : List String :=
  dedupePreserveOrder (blockTokenValues b)

/-- _block_search_blob. -/
def blockSearchBlob (b : SnapshotBlockText) : String :=
  joinSep "\n" (blockTokenValues b ++ (if b.text = "" then [] else [pyLower b.text]))

/-- _token_overlap_score. -/
def tokenOverlapScore (sourceTokens : List String) (candidateBlob : String) : ℚ :=
  if sourceTokens.isEmpty then 0
  else if candidateBlob = "" then 0
  else
    ((sourceTokens.countP fun t => t ≠ "" && strContains candidateBlob t : Nat) : ℚ) /
      (sourceTokens.length : ℚ)

/-- The inner best-candidate scan of _match_blocks_by_tokens: best is
(best_idx, best_score), updated on strictly greater scores. -/
def bestScan (tokens : List String) :
    List (SnapshotBlockText × String) → Nat → Option Nat × ℚ → Option Nat × ℚ
  | [], _, best => best
  | cb :: rest, idx, best =>
    let sc := tokenOverlapScore tokens cb.2
    bestScan tokens rest (idx + 1) (if best.2 < sc then (some idx, sc) else best)

/-- The source loop of _match_blocks_by_tokens; matches is the insertion
ordered dict, available the mutable candidate pool. -/
def matchLoop : List SnapshotBlockText → List (SnapshotBlockText × String) →
    List (Nat × SnapshotBlockText) →
    List (Nat × SnapshotBlockText) × List (SnapshotBlockText × String)
  | [], available, acc => (acc, available)
  | source :: rest, available, acc =>
    let sourceTokens := blockTokens source
    if sourceTokens.isEmpty then matchLoop rest available acc
    else
      let best := bestScan sourceTokens available 0 (none, 0)
      match best.1 with
      | none => matchLoop rest available acc
      | some idx =>
        if 0 < best.2 then
          match available[idx]? with
          | some entry =>
            matchLoop rest (available.eraseIdx idx)
              (acc ++ [(source.block_index, entry.1)])
          | none => matchLoop rest available acc
        else matchLoop rest available acc

/-- _match_blocks_by_tokens. -/
def matchBlocksByTokens (sources targets : List SnapshotBlockText) :
    List (Nat × SnapshotBlockText) × List SnapshotBlockText :=
  if sources.isEmpty || targets.isEmpty then ([], targets)
  else
    let r := matchLoop sources (targets.map fun b => (b, blockSearchBlob b)) []
    (r.1, r.2.map Prod.fst)

/-- A minimal block value whose only identifying content is its key and
index (used to instantiate the token-matcher claims). -/
def mkKeyBlock (index : Nat) (key : List String) : SnapshotBlockText :=
  { block_index := index
    text := ""
    key := key
    handles := []
    handlers := []
    hosts := []
    roots := []
    paths := []
    groups := []
    encodings := []
    locations := []
    dials := []
    status_codes := []
    route_payloads := [] }

/-! ### Structural digest engine (snapshots.py)

The comparison engine of snapshots.py is embedded over a model of the ORM
snapshot rows (models.py): a snapshot carries its source kind, its server
blocks (with sites, raw fragments and directives, exactly the fields
_block_payload serialises) and the owning config's caddyfile_path (the
scrub path source).  Two genuinely external effects are parameters:
sha256 hexdigests become an arbitrary digest function h : String → String,
and _caddyfile_route_entries — which shells out to the caddy adapter and
may raise CaddyError — becomes an oracle returning none on CaddyError and
otherwise the (canonical label key, normalised payload) entry list. -/

inductive SnapshotKind where
  | tui
  | caddyfile
  | live
deriving DecidableEq

/-- A raw fragment's content: Python stores a string, which json.loads
either decodes (jval v — idealising the parse of a JSON-valued fragment)
or fails on (txt s, raw Caddyfile text). -/
inductive JContent where
  | txt (s : String)
  | jval (v : JVal)

def contentString : JContent → String
  | .txt s => s
  | .jval v => dumps v

/-- json.loads on a fragment's content: none models JSONDecodeError. -/
def contentLoads : JContent → Option JVal
  | .txt _ => none
  | .jval v => some v

structure SBSite where
  raw_label : String
  host : Option String
  port : Option Int
  scheme : Option String
  is_ipv6 : Bool
  is_wildcard : Bool
  label_index : Nat

structure SBFragment where
  kind : String
  content : JContent
  fragment_index : Nat

structure SBDirectiveArg where
  value : String
  arg_index : Nat

/-- DirectiveKeyValue; the model's `section` column is named sectionName
here because section is a Lean keyword. -/
structure SBDirectiveKV where
  sectionName : Option String
  key : String
  value : String
  kv_index : Nat

structure SBDirective where
  name : String
  matcher : Option String
  line_index : Nat
  raw_leading : Option String
  raw_trailing : Option String
  has_block : Bool
  raw_block_body : Option String
  args : List SBDirectiveArg
  kv_pairs : List SBDirectiveKV

structure SBlock where
  block_index : Nat
  is_global : Bool
  raw_prelude : Option String
  raw_postlude : Option String
  sites : List SBSite
  fragments : List SBFragment
  directives : List SBDirective

structure Snapshot where
  source_kind : SnapshotKind
  server_blocks : List SBlock
  caddyfile_path : Option String

/-- An optional string as JSON (None serialises as null). -/
def optStr : Option String → JVal
  | none => JVal.null
  | some s => JVal.str s

def optInt : Option Int → JVal
  | none => JVal.null
  | some n => JVal.int n

mutual

/-- json.dumps(v, sort_keys=True, ensure_ascii=False) with the DEFAULT
separators (", " and ": ") used by structural_hash and _block_hashes
(unlike the compact separators of _normalise_json_fragment). -/
def dumpsD : JVal → String
  | .null => "null"
  | .bool b => if b then "true" else "false"
  | .int n => toString n
  | .str s => jsonQuote s
  | .arr items => "[" ++ String.intercalate ", " (dumpsDItems items) ++ "]"
  | .obj fields =>
      let sorted := sortByLt (fun a b => a.1 < b.1) (dumpsDFields fields)
      "\x7b" ++
        String.intercalate ", " (sorted.map fun kv => jsonQuote kv.1 ++ ": " ++ kv.2) ++
        "\x7d"

def dumpsDItems : List JVal → List String
  | [] => []
  | v :: rest => dumpsD v :: dumpsDItems rest

def dumpsDFields : List (String × JVal) → List (String × String)
  | [] => []
  | kv :: rest => (kv.1, dumpsD kv.2) :: dumpsDFields rest

end

def sortedSites (sites : List SBSite) : List SBSite :=
  sortByLt (fun a b => a.label_index < b.label_index) sites

def sortedFragments (frags : List SBFragment) : List SBFragment :=
  sortByLt (fun a b => a.fragment_index < b.fragment_index) frags

def sortedDirectives (dirs : List SBDirective) : List SBDirective :=
  sortByLt (fun a b => a.line_index < b.line_index) dirs

def sortedBlocks (blocks : List SBlock) : List SBlock :=
  sortByLt (fun a b => a.block_index < b.block_index) blocks

def sitePayload (s : SBSite) : JVal :=
  JVal.obj
    [ ("label", JVal.str s.raw_label),
      ("host", optStr s.host),
      ("port", optInt s.port),
      ("scheme", optStr s.scheme),
      ("is_ipv6", JVal.bool s.is_ipv6),
      ("is_wildcard", JVal.bool s.is_wildcard),
      ("order", JVal.int (s.label_index : Int)) ]

def fragPayload (f : SBFragment) : JVal :=
  JVal.obj
    [ ("kind", JVal.str f.kind),
      ("content", JVal.str (contentString f.content)),
      ("index", JVal.int (f.fragment_index : Int)) ]

def argPayload (a : SBDirectiveArg) : JVal :=
  JVal.obj
    [ ("value", JVal.str a.value),
      ("index", JVal.int (a.arg_index : Int)) ]

def kvPayload (kv : SBDirectiveKV) : JVal :=
  JVal.obj
    [ ("section", optStr kv.sectionName),
      ("key", JVal.str kv.key),
      ("value", JVal.str kv.value),
      ("index", JVal.int (kv.kv_index : Int)) ]

def directivePayload (d : SBDirective) : JVal :=
  JVal.obj
    [ ("name", JVal.str d.name),
      ("matcher", optStr d.matcher),
      ("line", JVal.int (d.line_index : Int)),
      ("raw_leading", optStr d.raw_leading),
      ("raw_trailing", optStr d.raw_trailing),
      ("has_block", JVal.bool d.has_block),
      ("raw_block_body", optStr d.raw_block_body),
      ("args", JVal.arr ((sortByLt (fun x y => x.arg_index < y.arg_index) d.args).map argPayload)),
      ("kv", JVal.arr ((sortByLt (fun x y => x.kv_index < y.kv_index) d.kv_pairs).map kvPayload)) ]

/-- _block_payload. -/
def blockPayload (b : SBlock) : JVal :=
  JVal.obj
    [ ("index", JVal.int (b.block_index : Int)),
      ("is_global", JVal.bool b.is_global),
      ("raw_prelude", optStr b.raw_prelude),
      ("raw_postlude", optStr b.raw_postlude),
      ("sites", JVal.arr ((sortedSites b.sites).map sitePayload)),
      ("fragments", JVal.arr ((sortedFragments b.fragments).map fragPayload)),
      ("directives", JVal.arr ((sortedDirectives b.directives).map directivePayload)) ]

/-- _snapshot_scrub_paths: the config's truthy caddyfile_path, stripped,
when nonempty. -/
def snapshotScrubPaths (s : Snapshot) : List String :=
  match s.caddyfile_path with
  | none => []
  | some p =>
      if p = "" then []
      else
        let t := stripString p
        if t = "" then [] else [t]

/-- _normalise_json_fragment on a stored fragment content string: none on
JSONDecodeError, otherwise the scrubbed compact sorted dump. -/
def normaliseContent (scrub : List String) (c : JContent) : Option String :=
  match contentLoads c with
  | none => none
  | some v => some (normaliseJsonFragment scrub v)

/-- _block_route_fragments: normalised json_route fragment payloads, in
fragment order, keeping truthy (nonempty) results. -/
def blockRouteFragments (scrub : List String) (b : SBlock) : List String :=
  (sortedFragments b.fragments).filterMap fun f =>
    if f.kind = "json_route" then
      match normaliseContent scrub f.content with
      | none => none
      | some s => if s = "" then none else some s
    else none

/-- _canonical_label_tuple: strip, drop falsy, default to (global),
dedupe and sort. -/
def canonicalLabelTuple (labels : List String) : List String :=
  let cleaned := labels.filterMap fun l =>
    if l = "" then none
    else
      let t := stripString l
      if t = "" then none else some t
  let values := if cleaned.isEmpty then ["(global)"] else cleaned
  sortByLt (fun a b => a < b) (dedupePreserveOrder values)

/-- _canonical_block_key. -/
def canonicalBlockKey (b : SBlock) : List String :=
  canonicalLabelTuple ((sortedSites b.sites).filterMap fun s =>
    if s.raw_label = "" then none else some (stripString s.raw_label))

/-- dict.setdefault(key, []).extend(vals) on an insertion-ordered
association list. -/
def assocExtend (key : List String) (vals : List String) :
    List (List String × List String) → List (List String × List String)
  | [] => [(key, vals)]
  | (k, vs) :: rest =>
      if k = key then (k, vs ++ vals) :: rest else (k, vs) :: assocExtend key vals rest

def assocLookup (key : List String) : List (List String × List String) → List String
  | [] => []
  | (k, vs) :: rest => if k = key then vs else assocLookup key rest

/-- _live_route_map's block loop: none as soon as a block contributes no
payloads. -/
def liveRouteMapLoop (scrub : List String) :
    List SBlock → List (List String × List String) →
    Option (List (List String × List String))
  | [], acc => some acc
  | b :: rest, acc =>
      let payloads := blockRouteFragments scrub b
      if payloads.isEmpty then none
      else liveRouteMapLoop scrub rest (assocExtend (canonicalBlockKey b) payloads acc)

def liveRouteMap (s : Snapshot) : Option (List (List String × List String)) :=
  liveRouteMapLoop (snapshotScrubPaths s) (sortedBlocks s.server_blocks) []

/-- _caddyfile_route_map over the adapter oracle's entry list. -/
def caddyfileRouteMapLoop :
    List (List String × String) → List (List String × List String) →
    List (List String × List String)
  | [], acc => acc
  | (k, p) :: rest, acc => caddyfileRouteMapLoop rest (assocExtend k [p] acc)

def caddyfileRouteMap (entries : List (List String × String)) :
    List (List String × List String) :=
  caddyfileRouteMapLoop entries []

/-- _snapshot_route_map: live snapshots are mapped locally; Caddyfile-backed
kinds go through the adapter oracle (none models CaddyError). -/
def snapshotRouteMap (adaptEntries : Snapshot → Option (List (List String × String)))
    (s : Snapshot) : Option (List (List String × List String)) :=
  match s.source_kind with
  | .live => liveRouteMap s
  | _ =>
      match adaptEntries s with
      | none => none
      | some es => some (caddyfileRouteMap es)

/-- _key_sort_value. -/
def keySortValue (key : List String) : Nat × String :=
  (key.length, pyLower (joinSep ", " key))

def keyLt (a b : List String) : Bool :=
  (keySortValue a).1 < (keySortValue b).1 ||
    ((keySortValue a).1 = (keySortValue b).1 && (keySortValue a).2 < (keySortValue b).2)

def gatherBlobs (rm : List (List String × List String)) :
    List (List String) → List String
  | [] => []
  | k :: rest => assocLookup k rm ++ gatherBlobs rm rest

/-- _snapshot_route_blobs: payloads concatenated over keys ordered by
(key length, lowered joined label text). -/
def snapshotRouteBlobs (adaptEntries : Snapshot → Option (List (List String × String)))
    (s : Snapshot) : Option (List String) :=
  match snapshotRouteMap adaptEntries s with
  | none => none
  | some rm => some (gatherBlobs rm (sortByLt keyLt (rm.map Prod.fst)))

/-- structural_hash, with the sha256 hexdigest as the parameter h. -/
def structuralHash (h : String → String)
    (adaptEntries : Snapshot → Option (List (List String × String)))
    (s : Snapshot) : String :=
  match snapshotRouteBlobs adaptEntries s with
  | some blobs => h (dumpsD (JVal.arr (blobs.map JVal.str)))
  | none => h (dumpsD (JVal.arr ((sortedBlocks s.server_blocks).map blockPayload)))

/-- The enumerate-and-hash comprehension of _block_hashes' route branch. -/
def enumHash (h : String → String) (i : Nat) : List String → List (Nat × String)
  | [] => []
  | blob :: rest => (i, h blob) :: enumHash h (i + 1) rest

/-- _block_hashes: route mode keys the digests by POSITION in the ordered
blob list; literal mode keys them by block_index. -/
def blockHashes (h : String → String)
    (adaptEntries : Snapshot → Option (List (List String × String)))
    (s : Snapshot) : List (Nat × String) :=
  match snapshotRouteBlobs adaptEntries s with
  | some blobs => enumHash h 0 blobs
  | none =>
      (sortedBlocks s.server_blocks).map fun b =>
        (b.block_index, h (dumpsD (blockPayload b)))

def dictGet (m : List (Nat × String)) (k : Nat) : Option String :=
  match m with
  | [] => none
  | (k2, v) :: rest => if k2 = k then some v else dictGet rest k

def dedupeNatAux (seen : List Nat) : List Nat → List Nat
  | [] => []
  | k :: rest =>
      if seen.contains k then dedupeNatAux seen rest
      else k :: dedupeNatAux (k :: seen) rest

/-- sorted(set(left) | set(right)) over the two digest maps' keys. -/
def unionKeys (lm rm : List (Nat × String)) : List Nat :=
  sortByLt (fun a b => a < b) (dedupeNatAux [] (lm.map Prod.fst ++ rm.map Prod.fst))

def mismatchCount (lm rm : List (Nat × String)) : Nat :=
  (unionKeys lm rm).countP fun k => decide (dictGet lm k ≠ dictGet rm k)

structure SnapshotComparison where
  left_kind : SnapshotKind
  right_kind : SnapshotKind
  status : String
  mismatch_count : Option Nat
  left_hash : Option String
  right_hash : Option String

/-- compare_snapshots. -/
def compareSnapshots (h : String → String)
    (adaptEntries : Snapshot → Option (List (List String × String)))
    (left right : Option Snapshot)
    (lk rk : SnapshotKind) : SnapshotComparison :=
  match left, right with
  | some l, some r =>
      let leftBlocks := blockHashes h adaptEntries l
      let rightBlocks := blockHashes h adaptEntries r
      let lh := structuralHash h adaptEntries l
      let rh := structuralHash h adaptEntries r
      { left_kind := lk
        right_kind := rk
        status := if lh = rh then "match" else "different"
        mismatch_count := some (mismatchCount leftBlocks rightBlocks)
        left_hash := some lh
        right_hash := some rh }
  | _, _ =>
      { left_kind := lk
        right_kind := rk
        status := "missing"
        mismatch_count := none
        left_hash := left.map (structuralHash h adaptEntries)
        right_hash := right.map (structuralHash h adaptEntries) }

/-- A minimal Caddyfile-kind snapshot with no blocks (concrete instance
for the comparison claims). -/
def c3SnapA : Snapshot :=
  { source_kind := SnapshotKind.caddyfile
    server_blocks := []
    caddyfile_path := none }

/-- A live-kind snapshot with a single labelled block whose sole fragment
is a JSON route (concrete instance for the digest-key claims): route-level
normalisation succeeds and its block_index (5) differs from the digest-map
key (position 0). -/
def c9Fragment : SBFragment :=
  { kind := "json_route"
    content := JContent.jval (JVal.obj [("handle", JVal.arr [])])
    fragment_index := 0 }

def c9Site : SBSite :=
  { raw_label := "b.example.com"
    host := none
    port := none
    scheme := none
    is_ipv6 := false
    is_wildcard := false
    label_index := 0 }

def c9Block : SBlock :=
  { block_index := 5
    is_global := false
    raw_prelude := none
    raw_postlude := none
    sites := [c9Site]
    fragments := [c9Fragment]
    directives := [] }

def c9Snap : Snapshot :=
  { source_kind := SnapshotKind.live
    server_blocks := [c9Block]
    caddyfile_path := none }

/-- The same block in a Caddyfile-kind snapshot: with the adapter oracle
failing (CaddyError), route normalisation yields none and literal hashing
applies. -/
def c9SnapLit : Snapshot :=
  { source_kind := SnapshotKind.caddyfile
    server_blocks := [c9Block]
    caddyfile_path := none }

/-! ### Segmenter lemmas -/

theorem consume_append_both (l : List Char) :
    (consumeWsAndComments l).1 ++ (consumeWsAndComments l).2 = l ∧
    (consumeComment l).1 ++ (consumeComment l).2 = l := by
  induction l with
  | nil => simp [consumeWsAndComments, consumeComment]
  | cons c rest ih =>
    constructor
    · by_cases hw : isWsChar c
      · simp [consumeWsAndComments, hw, ih.1]
      · by_cases hc : c = '#'
        · have hws : isWsChar '#' = false := by decide
          simp [consumeWsAndComments, hw, hc, hws, ih.2]
        · simp [consumeWsAndComments, hw, hc]
    · by_cases hn : c = '\n'
      · simp [consumeComment, hn, ih.1]
      · simp [consumeComment, hn, ih.2]

theorem consumeWsAndComments_append (l : List Char) :
    (consumeWsAndComments l).1 ++ (consumeWsAndComments l).2 = l :=
  (consume_append_both l).1

theorem consume_filler_both (l : List Char) :
    consumeWsAndComments (consumeWsAndComments l).1 = ((consumeWsAndComments l).1, []) ∧
    consumeComment (consumeComment l).1 = ((consumeComment l).1, []) := by
  induction l with
  | nil => simp [consumeWsAndComments, consumeComment]
  | cons c rest ih =>
    constructor
    · by_cases hw : isWsChar c
      · simp [consumeWsAndComments, hw, ih.1]
      · by_cases hc : c = '#'
        · have hwsharp : isWsChar '#' = false := by decide
          simp [consumeWsAndComments, hw, hc, hwsharp, ih.2]
        · simp [consumeWsAndComments, hw, hc]
      -- in the "other char" case the consumed text is [], and consuming [] gives ([], [])
    · by_cases hn : c = '\n'
      · have hwnl : isWsChar '\n' = true := by decide
        simp [consumeComment, hn, hwnl, consumeWsAndComments, ih.1]
      · simp [consumeComment, hn, ih.2]

theorem consume_isFiller (l : List Char) : IsFiller (consumeWsAndComments l).1 :=
  (consume_filler_both l).1

theorem splitAtBrace_eq (l b r : List Char) (h : splitAtBrace l = some (b, r)) :
    l = b ++ r ∧ ∃ t, r = braceOpen :: t := by
  induction l generalizing b r with
  | nil => simp [splitAtBrace] at h
  | cons c rest ih =>
    by_cases hb : c = braceOpen
    · subst hb
      simp only [splitAtBrace, if_pos rfl] at h
      injection h with h2
      injection h2 with h3 h4
      subst h3
      subst h4
      exact ⟨rfl, rest, rfl⟩
    · simp only [splitAtBrace, if_neg hb] at h
      match hsp : splitAtBrace rest with
      | none => rw [hsp] at h; simp at h
      | some (b', r') =>
        rw [hsp] at h
        simp at h
        obtain ⟨hb', hr⟩ := h
        obtain ⟨heq, t, ht⟩ := ih b' r' hsp
        subst hb' hr
        exact ⟨by simp [heq], t, ht⟩

theorem matchBrace_eq (l : List Char) (d : Nat) (b r : List Char)
    (h : matchBrace l d = some (b, r)) :
    l = b ++ r ∧ ∃ t, r = braceClose :: t := by
  induction l generalizing d b r with
  | nil => simp [matchBrace] at h
  | cons c rest ih =>
    by_cases ho : c = braceOpen
    · simp only [matchBrace, if_pos ho] at h
      match hm : matchBrace rest (d + 1) with
      | none => rw [hm] at h; simp at h
      | some (b', r') =>
        rw [hm] at h
        simp at h
        obtain ⟨hb, hr⟩ := h
        obtain ⟨heq, t, ht⟩ := ih (d + 1) b' r' hm
        subst hb hr
        exact ⟨by simp [heq], t, ht⟩
    · by_cases hc : c = braceClose
      · by_cases hd : d = 1
        · subst hc
          simp only [matchBrace, if_neg ho, if_pos rfl, if_pos hd] at h
          injection h with h2
          injection h2 with h3 h4
          subst h3
          subst h4
          exact ⟨rfl, rest, rfl⟩
        · simp only [matchBrace, if_neg ho, if_pos hc, if_neg hd] at h
          match hm : matchBrace rest (d - 1) with
          | none => rw [hm] at h; simp at h
          | some (b', r') =>
            rw [hm] at h
            simp at h
            obtain ⟨hb, hr⟩ := h
            obtain ⟨heq, t, ht⟩ := ih (d - 1) b' r' hm
            subst hb hr
            exact ⟨by simp [heq], t, ht⟩
      · simp only [matchBrace, if_neg ho, if_neg hc] at h
        match hm : matchBrace rest d with
        | none => rw [hm] at h; simp at h
        | some (b', r') =>
          rw [hm] at h
          simp at h
          obtain ⟨hb, hr⟩ := h
          obtain ⟨heq, t, ht⟩ := ih d b' r' hm
          subst hb hr
          exact ⟨by simp [heq], t, ht⟩

theorem parseLoop_render :
    ∀ (fuel : Nat) (text pending : List Char) (blocks : List ParsedBlock)
      (trailing : List Char),
      parseLoop fuel text pending = some (blocks, trailing) →
      blocks.flatMap renderParsedBlock ++ trailing = pending ++ text := by
  intro fuel
  induction fuel with
  | zero =>
    intro text pending blocks trailing h
    simp [parseLoop] at h
  | succ fuel ih =>
    intro text pending blocks trailing h
    simp only [parseLoop] at h
    split at h
    · injection h with h2
      injection h2 with h3 h4
      subst h3
      subst h4
      simp
    · rename_i header braceRest hsp
      split at h
      · simp at h
      · rename_i brace afterBrace
        split at h
        · simp at h
        · rename_i body closeRest hm
          split at h
          · simp at h
          · rename_i closeCh tail
            split at h
            · simp at h
            · rename_i blocks2 trailing2 hrec
              injection h with h2
              injection h2 with h3 h4
              subst h3
              subst h4
              obtain ⟨htext, -⟩ := splitAtBrace_eq text header (brace :: afterBrace) hsp
              obtain ⟨hafter, -⟩ := matchBrace_eq afterBrace 1 body (closeCh :: tail) hm
              have hx : blocks2.flatMap renderParsedBlock ++ trailing2 = tail :=
                (ih _ _ _ _ hrec).trans (consumeWsAndComments_append tail)
              subst htext
              subst hafter
              simp only [List.flatMap_cons, List.append_assoc, renderParsedBlock]
              rw [hx]
              simp

theorem parseLoop_blocks_shape :
    ∀ (fuel : Nat) (text pending : List Char) (blocks : List ParsedBlock)
      (trailing : List Char),
      parseLoop fuel text pending = some (blocks, trailing) →
      ∀ b ∈ blocks, b.raw_postlude = [] ∧ (IsFiller pending → IsFiller b.raw_prelude) := by
  intro fuel
  induction fuel with
  | zero =>
    intro text pending blocks trailing h
    simp [parseLoop] at h
  | succ fuel ih =>
    intro text pending blocks trailing h
    simp only [parseLoop] at h
    split at h
    · injection h with h2
      injection h2 with h3 h4
      subst h3
      simp
    · rename_i header braceRest hsp
      split at h
      · simp at h
      · rename_i brace afterBrace
        split at h
        · simp at h
        · rename_i body closeRest hm
          split at h
          · simp at h
          · rename_i closeCh tail
            split at h
            · simp at h
            · rename_i blocks2 trailing2 hrec
              injection h with h2
              injection h2 with h3 h4
              subst h3
              intro b hb
              rcases List.mem_cons.mp hb with hhead | htail2
              · subst hhead
                exact ⟨rfl, fun hp => hp⟩
              · have := ih _ _ _ _ hrec b htail2
                exact ⟨this.1, fun _ => this.2 (consume_isFiller tail)⟩

theorem setLastPostlude_render :
    ∀ (bs : List ParsedBlock) (p : List Char), bs ≠ [] →
      (∀ b ∈ bs, b.raw_postlude = []) →
      (setLastPostlude bs p).flatMap renderParsedBlock =
        bs.flatMap renderParsedBlock ++ p := by
  intro bs
  induction bs with
  | nil => intro p h; exact absurd rfl h
  | cons b rest ih =>
    intro p _ hpost
    cases rest with
    | nil =>
      have hb : b.raw_postlude = [] := hpost b (by simp)
      simp [setLastPostlude, renderParsedBlock, hb]
    | cons c rest2 =>
      have hstep : setLastPostlude (b :: c :: rest2) p =
          b :: setLastPostlude (c :: rest2) p := by
        simp [setLastPostlude]
      rw [hstep]
      simp only [List.flatMap_cons]
      rw [ih p (by simp) (fun x hx => hpost x (List.mem_cons_of_mem b hx))]
      simp

theorem setLastPostlude_length (bs : List ParsedBlock) (p : List Char) :
    (setLastPostlude bs p).length = bs.length := by
  induction bs with
  | nil => simp [setLastPostlude]
  | cons b rest ih =>
    cases rest with
    | nil => simp [setLastPostlude]
    | cons c rest2 =>
      have hstep : setLastPostlude (b :: c :: rest2) p =
          b :: setLastPostlude (c :: rest2) p := by
        simp [setLastPostlude]
      rw [hstep]
      simp [ih]

theorem setLastPostlude_prelude (bs : List ParsedBlock) (p : List Char) :
    (setLastPostlude bs p).map ParsedBlock.raw_prelude =
      bs.map ParsedBlock.raw_prelude := by
  induction bs with
  | nil => simp [setLastPostlude]
  | cons b rest ih =>
    cases rest with
    | nil => simp [setLastPostlude]
    | cons c rest2 =>
      have hstep : setLastPostlude (b :: c :: rest2) p =
          b :: setLastPostlude (c :: rest2) p := by
        simp [setLastPostlude]
      rw [hstep]
      simp [ih]

theorem setLastPostlude_getElem :
    ∀ (bs : List ParsedBlock) (p : List Char) (i : Nat), i + 1 < bs.length →
      (setLastPostlude bs p)[i]? = bs[i]? := by
  intro bs
  induction bs with
  | nil => intro p i h; simp at h
  | cons b rest ih =>
    intro p i h
    cases rest with
    | nil => simp at h
    | cons c rest2 =>
      have hstep : setLastPostlude (b :: c :: rest2) p =
          b :: setLastPostlude (c :: rest2) p := by
        simp [setLastPostlude]
      rw [hstep]
      cases i with
      | zero => simp
      | succ j =>
        simp only [List.getElem?_cons_succ]
        exact ih p j (by simpa using h)

theorem parse_sound (text : List Char) (cfg : ParsedConfig)
    (h : parseCaddyfileText text = some cfg) : renderParsedConfig cfg = text := by
  unfold parseCaddyfileText at h
  dsimp only at h
  split at h
  · simp at h
  · rename_i blocks pending hpl
    have hr : blocks.flatMap renderParsedBlock ++ pending = text :=
      (parseLoop_render _ _ _ _ _ hpl).trans (consumeWsAndComments_append text)
    by_cases hb : blocks.isEmpty
    · rw [if_pos hb] at h
      have hbe : blocks = [] := List.isEmpty_iff.mp hb
      subst hbe
      simp only [List.flatMap_nil, List.nil_append] at hr
      by_cases hp : pending.isEmpty
      · rw [if_pos hp] at h
        injection h with h2
        subst h2
        have : pending = [] := List.isEmpty_iff.mp hp
        simp [renderParsedConfig, ← hr, this]
      · rw [if_neg hp] at h
        injection h with h2
        subst h2
        simp [renderParsedConfig, renderParsedBlock, hr]
    · rw [if_neg hb] at h
      injection h with h2
      subst h2
      have hne : blocks ≠ [] := by
        intro hc; subst hc; simp at hb
      have hpost : ∀ b ∈ blocks, b.raw_postlude = [] :=
        fun b hbm => (parseLoop_blocks_shape _ _ _ _ _ hpl b hbm).1
      simp only [renderParsedConfig]
      rw [setLastPostlude_render blocks pending hne hpost, hr]

theorem braceClose_ne_braceOpen : braceClose ≠ braceOpen := by decide

theorem depthWalk_append (a : List Char) :
    ∀ (b : List Char) (d : Nat),
      depthWalk (a ++ b) d = (depthWalk a d).bind fun x => depthWalk b x := by
  induction a with
  | nil => intro b d; simp [depthWalk]
  | cons c rest ih =>
    intro b d
    by_cases ho : c = braceOpen
    · simp [depthWalk, ho, ih]
    · by_cases hc : c = braceClose
      · by_cases hd : d = 0
        · simp [depthWalk, ho, hc, hd, braceClose_ne_braceOpen]
        · simp [depthWalk, ho, hc, hd, ih, braceClose_ne_braceOpen]
      · simp [depthWalk, ho, hc, ih]

theorem depthWalk_append_split (a b : List Char) (d : Nat)
    (h : depthWalk (a ++ b) d = some 0) :
    ∃ m, depthWalk a d = some m ∧ depthWalk b m = some 0 := by
  rw [depthWalk_append] at h
  cases hw : depthWalk a d with
  | none => rw [hw] at h; simp at h
  | some m => rw [hw] at h; exact ⟨m, rfl, h⟩

theorem matchBrace_total :
    ∀ (l : List Char) (d : Nat), 1 ≤ d → depthWalk l d = some 0 →
      (matchBrace l d).isSome := by
  intro l
  induction l with
  | nil =>
    intro d hd h
    simp [depthWalk] at h
    omega
  | cons c rest ih =>
    intro d hd h
    by_cases ho : c = braceOpen
    · simp only [depthWalk, if_pos ho] at h
      have := ih (d + 1) (by omega) h
      obtain ⟨p, hp⟩ := Option.isSome_iff_exists.mp this
      obtain ⟨b, r⟩ := p
      simp [matchBrace, ho, hp]
    · by_cases hc : c = braceClose
      · have hd0 : d ≠ 0 := by omega
        simp only [depthWalk, if_neg ho, if_pos hc, if_neg hd0] at h
        by_cases h1 : d = 1
        · simp [matchBrace, ho, hc, h1, braceClose_ne_braceOpen]
        · have := ih (d - 1) (by omega) h
          obtain ⟨p, hp⟩ := Option.isSome_iff_exists.mp this
          obtain ⟨b, r⟩ := p
          simp [matchBrace, ho, hc, h1, hp, braceClose_ne_braceOpen]
      · simp only [depthWalk, if_neg ho, if_neg hc] at h
        have := ih d hd h
        obtain ⟨p, hp⟩ := Option.isSome_iff_exists.mp this
        obtain ⟨b, r⟩ := p
        simp [matchBrace, ho, hc, hp]

theorem matchBrace_mono :
    ∀ (l : List Char) (d e : Nat), 1 ≤ e → e ≤ d →
      (matchBrace l d).isSome → (matchBrace l e).isSome := by
  intro l
  induction l with
  | nil =>
    intro d e _ _ h
    simp [matchBrace] at h
  | cons c rest ih =>
    intro d e he hed h
    by_cases ho : c = braceOpen
    · simp only [matchBrace, if_pos ho] at h ⊢
      cases hm : matchBrace rest (d + 1) with
      | none => rw [hm] at h; simp at h
      | some p =>
        have := ih (d + 1) (e + 1) (by omega) (by omega) (by rw [hm]; rfl)
        obtain ⟨q, hq⟩ := Option.isSome_iff_exists.mp this
        obtain ⟨b, r⟩ := q
        simp [hq]
    · by_cases hc : c = braceClose
      · by_cases h1 : e = 1
        · simp [matchBrace, ho, hc, h1, braceClose_ne_braceOpen]
        · have hd1 : d ≠ 1 := by omega
          simp only [matchBrace, if_neg ho, if_pos hc, if_neg hd1] at h
          simp only [matchBrace, if_neg ho, if_pos hc, if_neg h1]
          cases hm : matchBrace rest (d - 1) with
          | none => rw [hm] at h; simp at h
          | some p =>
            have := ih (d - 1) (e - 1) (by omega) (by omega) (by rw [hm]; rfl)
            obtain ⟨q, hq⟩ := Option.isSome_iff_exists.mp this
            obtain ⟨b, r⟩ := q
            simp [hq]
      · simp only [matchBrace, if_neg ho, if_neg hc] at h ⊢
        cases hm : matchBrace rest d with
        | none => rw [hm] at h; simp at h
        | some p =>
          have := ih d e he hed (by rw [hm]; rfl)
          obtain ⟨q, hq⟩ := Option.isSome_iff_exists.mp this
          obtain ⟨b, r⟩ := q
          simp [hq]

theorem parseLoop_total :
    ∀ (fuel : Nat) (text pending : List Char), text.length < fuel →
      (∃ d, depthWalk text d = some 0) → (parseLoop fuel text pending).isSome := by
  intro fuel
  induction fuel with
  | zero => intro text pending h; omega
  | succ fuel ih =>
    intro text pending hlen hbal
    obtain ⟨d, hd⟩ := hbal
    simp only [parseLoop]
    cases hsp : splitAtBrace text with
    | none => simp
    | some pr =>
      obtain ⟨header, braceRest⟩ := pr
      obtain ⟨htext, t, ht⟩ := splitAtBrace_eq text header braceRest hsp
      subst ht
      rw [htext] at hd
      obtain ⟨d1, hd1, hd2⟩ := depthWalk_append_split header (braceOpen :: t) d hd
      simp only [depthWalk, if_pos rfl] at hd2
      have hm1 : (matchBrace t (d1 + 1)).isSome := matchBrace_total t (d1 + 1) (by omega) hd2
      have hm : (matchBrace t 1).isSome := matchBrace_mono t (d1 + 1) 1 (by omega) (by omega) hm1
      obtain ⟨pm, hpm⟩ := Option.isSome_iff_exists.mp hm
      obtain ⟨body, closeRest⟩ := pm
      obtain ⟨hafter, t2, ht2⟩ := matchBrace_eq t 1 body closeRest hpm
      subst ht2
      rw [hafter] at hd2
      obtain ⟨d2, hd3, hd4⟩ := depthWalk_append_split body (braceClose :: t2) (d1 + 1) hd2
      by_cases hz : d2 = 0
      · rw [hz] at hd4
        simp [depthWalk, braceClose_ne_braceOpen] at hd4
      · simp only [depthWalk, braceClose_ne_braceOpen, if_true, if_false, if_neg hz] at hd4
        have htsplit := consumeWsAndComments_append t2
        obtain ⟨d3, hd5, hd6⟩ := depthWalk_append_split (consumeWsAndComments t2).1
          (consumeWsAndComments t2).2 (d2 - 1) (by rw [htsplit]; exact hd4)
        have hlen2 : (consumeWsAndComments t2).2.length < fuel := by
          have h1 : (consumeWsAndComments t2).1.length + (consumeWsAndComments t2).2.length
              = t2.length := by
            have := congrArg List.length htsplit
            simpa using this
          have h2 : text.length = header.length + (1 + (body.length + (1 + t2.length))) := by
            rw [htext, hafter]
            simp only [List.length_append, List.length_cons]
            omega
          omega
        have := ih (consumeWsAndComments t2).2 (consumeWsAndComments t2).1 hlen2 ⟨d3, hd6⟩
        obtain ⟨pz, hpz⟩ := Option.isSome_iff_exists.mp this
        obtain ⟨blocks2, trailing2⟩ := pz
        simp [hpm, hpz]

theorem balanced_parses (text : List Char) (h : bracesBalanced text) :
    ∃ cfg, parseCaddyfileText text = some cfg := by
  unfold bracesBalanced at h
  have hsplit := consumeWsAndComments_append text
  obtain ⟨d, hd1, hd2⟩ := depthWalk_append_split (consumeWsAndComments text).1
    (consumeWsAndComments text).2 0 (by rw [hsplit]; exact h)
  have hlen : (consumeWsAndComments text).2.length < text.length + 1 := by
    have := congrArg List.length hsplit
    simp at this
    omega
  have htot := parseLoop_total (text.length + 1) (consumeWsAndComments text).2
    (consumeWsAndComments text).1 hlen ⟨d, hd2⟩
  obtain ⟨pr, hpr⟩ := Option.isSome_iff_exists.mp htot
  obtain ⟨blocks, pending⟩ := pr
  have hsome : (parseCaddyfileText text).isSome := by
    unfold parseCaddyfileText
    dsimp only
    rw [hpr]
    by_cases hb : blocks.isEmpty <;> by_cases hp : pending.isEmpty <;> simp [hb, hp]
  exact Option.isSome_iff_exists.mp hsome

/-! ### Scrubbing lemmas (C4) -/

theorem scrubItems_eq (scrub : List String) (items : List JVal) :
    scrubItems scrub items = items.map (scrubHide scrub) := by
  induction items with
  | nil => simp [scrubItems]
  | cons v rest ih => simp [scrubItems, ih]

theorem scrubFields_eq (scrub : List String) (rh : Option JVal)
    (fields : List (String × JVal)) :
    scrubFields scrub rh fields = fields.map fun kv =>
      (kv.1, if kv.1 = "hide" then rh.getD (scrubHide scrub kv.2)
             else scrubHide scrub kv.2) := by
  induction fields with
  | nil => simp [scrubFields]
  | cons kv rest ih =>
    simp only [scrubFields, ih, List.map_cons]
    cases rh <;> simp

theorem substItems_eq (old new : String) (items : List JVal) :
    substItems old new items = items.map (substOwn old new) := by
  induction items with
  | nil => simp [substItems]
  | cons v rest ih => simp [substItems, ih]

theorem substFields_eq (old new : String) (rh : Option JVal)
    (fields : List (String × JVal)) :
    substFields old new rh fields = fields.map fun kv =>
      (kv.1, if kv.1 = "hide" then rh.getD (substOwn old new kv.2)
             else substOwn old new kv.2) := by
  induction fields with
  | nil => simp [substFields]
  | cons kv rest ih =>
    simp only [substFields, ih, List.map_cons]
    cases rh <;> simp

theorem hideMentionsItems_eq (p : String) (items : List JVal) :
    hideMentionsItems p items = items.any (hideMentions p) := by
  induction items with
  | nil => simp [hideMentionsItems]
  | cons v rest ih => simp [hideMentionsItems, ih]

theorem hideMentionsFields_eq (p : String) (fields : List (String × JVal)) :
    hideMentionsFields p fields = fields.any fun kv => hideMentions p kv.2 := by
  induction fields with
  | nil => simp [hideMentionsFields]
  | cons kv rest ih => simp [hideMentionsFields, ih]

theorem jGet_map_snd (f : String → JVal → JVal) :
    ∀ (fields : List (String × JVal)) (k : String),
      jGet (fields.map fun kv => (kv.1, f kv.1 kv.2)) k = (jGet fields k).map (f k) := by
  intro fields
  induction fields with
  | nil => intro k; simp [jGet]
  | cons kv rest ih =>
    intro k
    by_cases hk : kv.1 = k
    · subst hk
      simp [jGet]
    · simp [jGet, hk, ih]

theorem substOwn_str_iff (old new : String) (v : JVal) (s : String) :
    substOwn old new v = JVal.str s ↔ v = JVal.str s := by
  cases v <;> simp [substOwn]

theorem normalizeStringValues_subst (old new : String) (v : JVal) :
    normalizeStringValues (substOwn old new v) = normalizeStringValues v := by
  cases v with
  | null => rfl
  | bool b => rfl
  | int n => rfl
  | str s => rfl
  | arr items =>
    simp only [substOwn, substItems_eq, normalizeStringValues, List.filterMap_map]
    induction items with
    | nil => simp
    | cons v rest ih =>
      simp only [List.filterMap_cons]
      cases v <;> simp_all [substOwn, Function.comp]
  | obj fields =>
    simp only [substOwn, substFields_eq, normalizeStringValues, List.filterMap_map]
    apply List.filterMap_congr
    intro kv _
    rfl

theorem normalizeStringValues_ne_empty (v : JVal) :
    ∀ e ∈ normalizeStringValues v, e ≠ "" := by
  cases v with
  | null => simp [normalizeStringValues]
  | bool b => simp [normalizeStringValues]
  | int n => simp [normalizeStringValues]
  | str s =>
    by_cases hs : s = "" <;> simp [normalizeStringValues, hs]
  | arr items =>
    intro e he
    simp only [normalizeStringValues, List.mem_filterMap] at he
    obtain ⟨v2, hmem, hv2⟩ := he
    cases v2 <;> simp at hv2
    obtain ⟨hne, heq⟩ := hv2
    subst heq
    exact hne
  | obj fields =>
    intro e he
    simp only [normalizeStringValues, List.mem_filterMap] at he
    obtain ⟨kv, hmem, hkv⟩ := he
    simp at hkv
    obtain ⟨hne, heq⟩ := hkv
    subst heq
    exact hne

theorem normalizeStringValues_mapped_entries (p1 p2 : String) (h2 : p2 ≠ "") :
    ∀ (entries : List String), (∀ e ∈ entries, e ≠ "") →
      normalizeStringValues (JVal.arr (entries.map fun e =>
          JVal.str (if e = p1 then p2 else e)))
        = entries.map fun e => if e = p1 then p2 else e := by
  intro entries
  induction entries with
  | nil => intro _; simp [normalizeStringValues]
  | cons a as ih =>
    intro hne
    have ha := hne a (by simp)
    have has : ∀ e ∈ as, e ≠ "" := fun e he => hne e (List.mem_cons_of_mem a he)
    have htl := ih has
    simp only [normalizeStringValues, List.map_cons, List.filterMap_cons] at htl ⊢
    by_cases hap : a = p1
    · simp only [hap, if_pos rfl]
      simp [h2, htl]
    · simp only [if_neg hap]
      simp [ha, htl]

theorem isFileServer_substFields (old new : String) (rh : Option JVal)
    (fields : List (String × JVal)) :
    isFileServer (substFields old new rh fields) = isFileServer fields := by
  rw [substFields_eq]
  unfold isFileServer
  rw [jGet_map_snd (fun k v => if k = "hide" then rh.getD (substOwn old new v) else substOwn old new v)]
  cases hg : jGet fields "handler" with
  | none => simp
  | some v =>
    have hh : ("handler" : String) = "hide" ↔ False := by simp
    cases v <;> simp [substOwn, hh]

theorem jGet_substFields_hide (old new : String) (rh : Option JVal)
    (fields : List (String × JVal)) :
    jGet (substFields old new rh fields) "hide" =
      (jGet fields "hide").map fun v => rh.getD (substOwn old new v) := by
  rw [substFields_eq]
  rw [jGet_map_snd (fun k v => if k = "hide" then rh.getD (substOwn old new v) else substOwn old new v)]
  cases jGet fields "hide" <;> simp

theorem scrubFields_subst_pointwise (p1 p2 : String) (rh1 rhS rh2 : Option JVal)
    (fields : List (String × JVal))
    (hcase : (rh1 = none ∧ rhS = none ∧ rh2 = none) ∨
      (∃ nv vS, rh1 = some nv ∧ rhS = some vS ∧ rh2 = some nv))
    (hpt : ∀ kv ∈ fields, scrubHide [p1] kv.2 = scrubHide [p2] (substOwn p1 p2 kv.2)) :
    scrubFields [p1] rh1 fields =
      scrubFields [p2] rh2 (substFields p1 p2 rhS fields) := by
  induction fields with
  | nil => simp [scrubFields, substFields]
  | cons kv rest ih =>
    have hkv := hpt kv (by simp)
    have hrest := ih fun kv2 h2 => hpt kv2 (List.mem_cons_of_mem kv h2)
    by_cases hk : kv.1 = "hide"
    · rcases hcase with ⟨h1, hS, h2⟩ | ⟨nv, vS, h1, hS, h2⟩
      · subst h1; subst hS; subst h2
        simp [scrubFields, substFields, hk, hkv, hrest]
      · subst h1; subst hS; subst h2
        simp [scrubFields, substFields, hk, hrest]
    · rcases hcase with ⟨h1, hS, h2⟩ | ⟨nv, vS, h1, hS, h2⟩ <;>
        [skip; skip] <;> subst h1 <;> subst hS <;> subst h2 <;>
        simp [scrubFields, substFields, hk, hkv, hrest]

theorem scrub_subst_main (p1 p2 : String) (h2 : p2 ≠ "") :
    ∀ (n : Nat) (j : JVal), sizeOf j ≤ n → hideMentions p2 j = false →
      scrubHide [p1] j = scrubHide [p2] (substOwn p1 p2 j) := by
  intro n
  induction n with
  | zero =>
    intro j hsz
    exfalso
    cases j <;> simp at hsz
  | succ n ih =>
    intro j hsz hno
    cases j with
    | null => rfl
    | bool b => rfl
    | int m => rfl
    | str s => rfl
    | arr items =>
      simp only [scrubHide, substOwn, scrubItems_eq, substItems_eq, List.map_map]
      refine congrArg JVal.arr (List.map_congr_left ?_)
      intro v hv
      have hvsz : sizeOf v ≤ n := by
        have h1 := List.sizeOf_lt_of_mem hv
        have h3 : sizeOf (JVal.arr items) = 1 + sizeOf items := by simp
        omega
      have hvno : hideMentions p2 v = false := by
        simp only [hideMentions, hideMentionsItems_eq] at hno
        rw [List.any_eq_false] at hno
        simpa using hno v hv
      exact ih v hvsz hvno
    | obj fields =>
      have hptw : ∀ kv ∈ fields, scrubHide [p1] kv.2 = scrubHide [p2] (substOwn p1 p2 kv.2) := by
        intro kv hkv
        have hvsz : sizeOf kv.2 ≤ n := by
          have h1 := List.sizeOf_lt_of_mem hkv
          have h3 : sizeOf (JVal.obj fields) = 1 + sizeOf fields := by simp
          have h4 : sizeOf kv.2 < sizeOf kv := by
            obtain ⟨a, b⟩ := kv
            simp
          omega
        have hvno : hideMentions p2 kv.2 = false := by
          simp only [hideMentions, Bool.or_eq_false_iff, hideMentionsFields_eq] at hno
          rw [List.any_eq_false] at hno
          simpa using hno.2 kv hkv
        exact ih kv.2 hvsz hvno
      simp only [scrubHide, substOwn]
      refine congrArg JVal.obj (scrubFields_subst_pointwise p1 p2 _ _ _ fields ?_ hptw)
      -- relate the three hide replacements
      by_cases hFS : isFileServer fields
      · have hFS2 : isFileServer (substFields p1 p2 (substReplacement p1 p2 fields) fields)
            = true := by rw [isFileServer_substFields]; exact hFS
        cases hhv : jGet fields "hide" with
        | none =>
          left
          refine ⟨?_, ?_, ?_⟩
          · simp [hideReplacement, hFS, hhv]
          · simp [substReplacement, hFS, hhv]
          · simp [hideReplacement, hFS2, jGet_substFields_hide, hhv]
        | some hv =>
          by_cases hemp : (normalizeStringValues hv).isEmpty
          · left
            refine ⟨?_, ?_, ?_⟩
            · simp [hideReplacement, hFS, hhv, hemp]
            · simp [substReplacement, hFS, hhv, hemp]
            · have hsub : (normalizeStringValues (substOwn p1 p2 hv)).isEmpty = true := by
                rw [normalizeStringValues_subst]; exact hemp
              simp [hideReplacement, hFS2, jGet_substFields_hide, hhv,
                substReplacement, hFS, hemp, hsub]
          · right
            have hnoFS : (normalizeStringValues hv).contains p2 = false := by
              simp only [hideMentions, Bool.or_eq_false_iff, hFS, if_true, hhv] at hno
              exact hno.1
            refine ⟨JVal.arr ((normalizeStringValues hv).map fun e =>
              JVal.str (if [p1].contains e then CADDYFILE_HIDE_SENTINEL else e)),
              JVal.arr ((normalizeStringValues hv).map fun e =>
                JVal.str (if e = p1 then p2 else e)), ?_, ?_, ?_⟩
            · simp [hideReplacement, hFS, hhv, hemp]
            · simp [substReplacement, hFS, hhv, hemp]
            · have hg2 : jGet (substFields p1 p2 (substReplacement p1 p2 fields) fields) "hide"
                  = some (JVal.arr ((normalizeStringValues hv).map fun e =>
                      JVal.str (if e = p1 then p2 else e))) := by
                rw [jGet_substFields_hide, hhv]
                simp [substReplacement, hFS, hhv, hemp]
              have hnorm := normalizeStringValues_mapped_entries p1 p2 h2
                (normalizeStringValues hv) (normalizeStringValues_ne_empty hv)
              have hne2 : (((normalizeStringValues hv).map fun e =>
                  if e = p1 then p2 else e).isEmpty) = false := by
                cases hl : normalizeStringValues hv with
                | nil => rw [hl] at hemp; simp at hemp
                | cons a as => simp
              simp only [hideReplacement, hFS2, if_true, hg2, hnorm, hne2,
                Bool.false_eq_true, if_false]
              congr 1
              rw [List.map_map]
              refine congrArg JVal.arr (List.map_congr_left ?_)
              intro e he
              have hep2 : e ≠ p2 := by
                have hmem : p2 ∉ normalizeStringValues hv := by simpa using hnoFS
                intro hc
                exact hmem (hc ▸ he)
              by_cases hep : e = p1
              · simp [hep, Function.comp]
              · simp [Function.comp, hep, hep2]
      · have hFS2 : isFileServer (substFields p1 p2 (substReplacement p1 p2 fields) fields)
            = false := by rw [isFileServer_substFields]; simpa using hFS
        left
        refine ⟨?_, ?_, ?_⟩
        · simp [hideReplacement, hFS]
        · simp [substReplacement, hFS]
        · simp [hideReplacement, hFS2]

/-! ### Token matcher lemmas (C5) -/

theorem bestScan_spec (tokens : List String) :
    ∀ (avail : List (SnapshotBlockText × String)) (idx : Nat) (best : Option Nat × ℚ),
      (∀ e ∈ avail, tokenOverlapScore tokens e.2 ≤ (bestScan tokens avail idx best).2) ∧
      best.2 ≤ (bestScan tokens avail idx best).2 ∧
      (bestScan tokens avail idx best = best ∨
        ∃ j e, avail[j]? = some e ∧
          bestScan tokens avail idx best = (some (idx + j), tokenOverlapScore tokens e.2)) := by
  intro avail
  induction avail with
  | nil =>
    intro idx best
    exact ⟨by simp, le_refl _, Or.inl rfl⟩
  | cons cb rest ih =>
    intro idx best
    simp only [bestScan]
    by_cases hlt : best.2 < tokenOverlapScore tokens cb.2
    · rw [if_pos hlt]
      obtain ⟨h1, h2, h3⟩ := ih (idx + 1) (some idx, tokenOverlapScore tokens cb.2)
      refine ⟨?_, le_trans (le_of_lt hlt) h2, ?_⟩
      · intro e he
        rcases List.mem_cons.mp he with he2 | hm
        · rw [he2]; exact h2
        · exact h1 e hm
      · rcases h3 with heq | ⟨j, e, hget, heq⟩
        · right
          exact ⟨0, cb, by simp, by rw [heq]; simp⟩
        · right
          refine ⟨j + 1, e, by simpa using hget, ?_⟩
          have hidx : idx + 1 + j = idx + (j + 1) := by omega
          rw [heq, hidx]
    · rw [if_neg hlt]
      obtain ⟨h1, h2, h3⟩ := ih (idx + 1) best
      refine ⟨?_, h2, ?_⟩
      · intro e he
        rcases List.mem_cons.mp he with he2 | hm
        · rw [he2]; exact le_trans (le_of_not_lt hlt) h2
        · exact h1 e hm
      · rcases h3 with heq | ⟨j, e, hget, heq⟩
        · left; exact heq
        · right
          refine ⟨j + 1, e, by simpa using hget, ?_⟩
          have hidx : idx + 1 + j = idx + (j + 1) := by omega
          rw [heq, hidx]

theorem perm_cons_eraseIdx {α : Type} :
    ∀ (l : List α) (i : Nat) (e : α), l[i]? = some e →
      l.Perm (e :: l.eraseIdx i) := by
  intro l
  induction l with
  | nil => intro i e h; simp at h
  | cons a rest ih =>
    intro i e h
    cases i with
    | zero =>
      simp at h
      subst h
      simp [List.eraseIdx]
    | succ j =>
      simp only [List.getElem?_cons_succ] at h
      have hx := ih j e h
      have h1 : (a :: rest).Perm (a :: e :: rest.eraseIdx j) := List.Perm.cons a hx
      have h2 : (a :: e :: rest.eraseIdx j).Perm (e :: a :: rest.eraseIdx j) :=
        List.Perm.swap e a _
      have h3 : (e :: a :: rest.eraseIdx j : List α) =
          e :: (a :: rest).eraseIdx (j + 1) := by simp [List.eraseIdx]
      exact h3 ▸ h1.trans h2

theorem mem_of_mem_eraseIdx2 {α : Type} {l : List α} {i : Nat} {e a : α}
    (hget : l[i]? = some e) (ha : a ∈ l.eraseIdx i) : a ∈ l :=
  (perm_cons_eraseIdx l i e hget).mem_iff.mpr (List.mem_cons_of_mem e ha)

theorem matchLoop_step_empty (source : SnapshotBlockText) (rest : List SnapshotBlockText)
    (avail : List (SnapshotBlockText × String)) (acc : List (Nat × SnapshotBlockText))
    (htok : (blockTokens source).isEmpty = true) :
    matchLoop (source :: rest) avail acc = matchLoop rest avail acc := by
  simp [matchLoop, htok]

theorem matchLoop_step_none (source : SnapshotBlockText) (rest : List SnapshotBlockText)
    (avail : List (SnapshotBlockText × String)) (acc : List (Nat × SnapshotBlockText))
    (htok : ¬ (blockTokens source).isEmpty = true)
    (hbs : (bestScan (blockTokens source) avail 0 (none, 0)).1 = none) :
    matchLoop (source :: rest) avail acc = matchLoop rest avail acc := by
  simp only [matchLoop, if_neg htok]
  rw [hbs]

theorem matchLoop_step_nonpos (source : SnapshotBlockText) (rest : List SnapshotBlockText)
    (avail : List (SnapshotBlockText × String)) (acc : List (Nat × SnapshotBlockText))
    (idx : Nat)
    (htok : ¬ (blockTokens source).isEmpty = true)
    (hbs : (bestScan (blockTokens source) avail 0 (none, 0)).1 = some idx)
    (hpos : ¬ 0 < (bestScan (blockTokens source) avail 0 (none, 0)).2) :
    matchLoop (source :: rest) avail acc = matchLoop rest avail acc := by
  simp only [matchLoop, if_neg htok]
  rw [hbs]
  simp only [if_neg hpos]

theorem matchLoop_step_pop (source : SnapshotBlockText) (rest : List SnapshotBlockText)
    (avail : List (SnapshotBlockText × String)) (acc : List (Nat × SnapshotBlockText))
    (idx : Nat) (entry : SnapshotBlockText × String)
    (htok : ¬ (blockTokens source).isEmpty = true)
    (hbs : (bestScan (blockTokens source) avail 0 (none, 0)).1 = some idx)
    (hpos : 0 < (bestScan (blockTokens source) avail 0 (none, 0)).2)
    (hget : avail[idx]? = some entry) :
    matchLoop (source :: rest) avail acc =
      matchLoop rest (avail.eraseIdx idx) (acc ++ [(source.block_index, entry.1)]) := by
  simp only [matchLoop, if_neg htok]
  rw [hbs]
  simp only [if_pos hpos]
  rw [hget]

theorem matchLoop_stable :
    ∀ (sources : List SnapshotBlockText)
      (avail1 avail2 : List (SnapshotBlockText × String))
      (acc : List (Nat × SnapshotBlockText)),
      avail1.Perm avail2 →
      (∀ s ∈ sources, ∀ e1 ∈ avail1, ∀ e2 ∈ avail1,
        tokenOverlapScore (blockTokens s) e1.2 = tokenOverlapScore (blockTokens s) e2.2 →
        e1 = e2 ∨ tokenOverlapScore (blockTokens s) e1.2 ≤ 0) →
      (matchLoop sources avail1 acc).1 = (matchLoop sources avail2 acc).1 ∧
      (matchLoop sources avail1 acc).2.Perm (matchLoop sources avail2 acc).2 := by
  intro sources
  induction sources with
  | nil =>
    intro avail1 avail2 acc hperm _
    exact ⟨rfl, hperm⟩
  | cons source rest ih =>
    intro avail1 avail2 acc hperm hties
    have hties1 : ∀ e1 ∈ avail1, ∀ e2 ∈ avail1,
        tokenOverlapScore (blockTokens source) e1.2 =
          tokenOverlapScore (blockTokens source) e2.2 →
        e1 = e2 ∨ tokenOverlapScore (blockTokens source) e1.2 ≤ 0 :=
      hties source (by simp)
    have htiesRest : ∀ s ∈ rest, ∀ e1 ∈ avail1, ∀ e2 ∈ avail1,
        tokenOverlapScore (blockTokens s) e1.2 = tokenOverlapScore (blockTokens s) e2.2 →
        e1 = e2 ∨ tokenOverlapScore (blockTokens s) e1.2 ≤ 0 :=
      fun s hs => hties s (List.mem_cons_of_mem _ hs)
    by_cases htok : (blockTokens source).isEmpty
    · rw [matchLoop_step_empty source rest avail1 acc htok,
        matchLoop_step_empty source rest avail2 acc htok]
      exact ih avail1 avail2 acc hperm htiesRest
    · obtain ⟨hmax1, hbase1, hcase1⟩ := bestScan_spec (blockTokens source) avail1 0 (none, 0)
      obtain ⟨hmax2, hbase2, hcase2⟩ := bestScan_spec (blockTokens source) avail2 0 (none, 0)
      rcases hcase1 with hr1 | ⟨j1, e1, hg1, hr1⟩
      · have hall1 : ∀ e ∈ avail1, tokenOverlapScore (blockTokens source) e.2 ≤ 0 := by
          intro e he
          have hx := hmax1 e he
          rw [hr1] at hx
          exact hx
        have hstep1 := matchLoop_step_none source rest avail1 acc htok (by rw [hr1])
        rcases hcase2 with hr2 | ⟨j2, e2, hg2, hr2⟩
        · rw [hstep1, matchLoop_step_none source rest avail2 acc htok (by rw [hr2])]
          exact ih avail1 avail2 acc hperm htiesRest
        · have he2mem : e2 ∈ avail2 := by
            obtain ⟨hlt, hel⟩ := List.getElem?_eq_some.mp hg2
            exact hel ▸ List.getElem_mem hlt
          have hle : tokenOverlapScore (blockTokens source) e2.2 ≤ 0 :=
            hall1 e2 (hperm.mem_iff.mpr he2mem)
          rw [hstep1, matchLoop_step_nonpos source rest avail2 acc (0 + j2) htok
            (by rw [hr2]) (by rw [hr2]; exact not_lt.mpr hle)]
          exact ih avail1 avail2 acc hperm htiesRest
      · have he1mem : e1 ∈ avail1 := by
          obtain ⟨hlt, hel⟩ := List.getElem?_eq_some.mp hg1
          exact hel ▸ List.getElem_mem hlt
        by_cases hpos : 0 < tokenOverlapScore (blockTokens source) e1.2
        · rcases hcase2 with hr2 | ⟨j2, e2, hg2, hr2⟩
          · exfalso
            have hx := hmax2 e1 (hperm.mem_iff.mp he1mem)
            rw [hr2] at hx
            exact absurd (lt_of_lt_of_le hpos hx) (lt_irrefl _)
          · have he2mem : e2 ∈ avail2 := by
              obtain ⟨hlt, hel⟩ := List.getElem?_eq_some.mp hg2
              exact hel ▸ List.getElem_mem hlt
            have hle12 : tokenOverlapScore (blockTokens source) e2.2 ≤
                tokenOverlapScore (blockTokens source) e1.2 := by
              have hx := hmax1 e2 (hperm.mem_iff.mpr he2mem)
              rw [hr1] at hx
              exact hx
            have hle21 : tokenOverlapScore (blockTokens source) e1.2 ≤
                tokenOverlapScore (blockTokens source) e2.2 := by
              have hx := hmax2 e1 (hperm.mem_iff.mp he1mem)
              rw [hr2] at hx
              exact hx
            have heq : tokenOverlapScore (blockTokens source) e1.2 =
                tokenOverlapScore (blockTokens source) e2.2 :=
              le_antisymm hle21 hle12
            have he12 : e1 = e2 := by
              rcases hties1 e1 he1mem e2 (hperm.mem_iff.mpr he2mem) heq with h | h
              · exact h
              · exact absurd (lt_of_lt_of_le hpos h) (lt_irrefl _)
            subst he12
            have hg1z : avail1[(0 + j1 : Nat)]? = some e1 := by
              rw [Nat.zero_add]; exact hg1
            have hg2z : avail2[(0 + j2 : Nat)]? = some e1 := by
              rw [Nat.zero_add]; exact hg2
            rw [matchLoop_step_pop source rest avail1 acc (0 + j1) e1 htok
                (by rw [hr1]) (by rw [hr1]; exact hpos) hg1z,
              matchLoop_step_pop source rest avail2 acc (0 + j2) e1 htok
                (by rw [hr2]) (by rw [hr2]; exact hpos) hg2z]
            have hperm2 : (avail1.eraseIdx (0 + j1)).Perm (avail2.eraseIdx (0 + j2)) :=
              List.Perm.cons_inv
                (((perm_cons_eraseIdx avail1 (0 + j1) e1 hg1z).symm.trans hperm).trans
                  (perm_cons_eraseIdx avail2 (0 + j2) e1 hg2z))
            refine ih (avail1.eraseIdx (0 + j1)) (avail2.eraseIdx (0 + j2))
              (acc ++ [(source.block_index, e1.1)]) hperm2 ?_
            intro s hs f1 hf1 f2 hf2 hfe
            exact htiesRest s hs f1 (mem_of_mem_eraseIdx2 hg1z hf1)
              f2 (mem_of_mem_eraseIdx2 hg1z hf2) hfe
        · have hall1 : ∀ e ∈ avail1, tokenOverlapScore (blockTokens source) e.2 ≤ 0 := by
            intro e he
            have hx := hmax1 e he
            rw [hr1] at hx
            exact le_trans hx (le_of_not_lt hpos)
          have hstep1 := matchLoop_step_nonpos source rest avail1 acc (0 + j1) htok
            (by rw [hr1]) (by rw [hr1]; exact hpos)
          rcases hcase2 with hr2 | ⟨j2, e2, hg2, hr2⟩
          · rw [hstep1, matchLoop_step_none source rest avail2 acc htok (by rw [hr2])]
            exact ih avail1 avail2 acc hperm htiesRest
          · have he2mem : e2 ∈ avail2 := by
              obtain ⟨hlt, hel⟩ := List.getElem?_eq_some.mp hg2
              exact hel ▸ List.getElem_mem hlt
            have hle : tokenOverlapScore (blockTokens source) e2.2 ≤ 0 :=
              hall1 e2 (hperm.mem_iff.mpr he2mem)
            rw [hstep1, matchLoop_step_nonpos source rest avail2 acc (0 + j2) htok
              (by rw [hr2]) (by rw [hr2]; exact not_lt.mpr hle)]
            exact ih avail1 avail2 acc hperm htiesRest

theorem matchLoop_accounting :
    ∀ (sources : List SnapshotBlockText) (avail : List (SnapshotBlockText × String))
      (acc : List (Nat × SnapshotBlockText)),
      ((matchLoop sources avail acc).1.map Prod.snd ++
        (matchLoop sources avail acc).2.map Prod.fst).Perm
        (acc.map Prod.snd ++ avail.map Prod.fst) := by
  intro sources
  induction sources with
  | nil => intro avail acc; exact List.Perm.refl _
  | cons source rest ih =>
    intro avail acc
    by_cases htok : (blockTokens source).isEmpty
    · rw [matchLoop_step_empty source rest avail acc htok]
      exact ih avail acc
    · cases hbs : (bestScan (blockTokens source) avail 0 (none, 0)).1 with
      | none =>
        rw [matchLoop_step_none source rest avail acc htok hbs]
        exact ih avail acc
      | some idx =>
        by_cases hpos : 0 < (bestScan (blockTokens source) avail 0 (none, 0)).2
        · cases hget : avail[idx]? with
          | none =>
            rw [show matchLoop (source :: rest) avail acc = matchLoop rest avail acc from by
              simp only [matchLoop, if_neg htok]
              rw [hbs]
              simp only [if_pos hpos]
              rw [hget]]
            exact ih avail acc
          | some entry =>
            rw [matchLoop_step_pop source rest avail acc idx entry htok hbs hpos hget]
            have h1 := ih (avail.eraseIdx idx) (acc ++ [(source.block_index, entry.1)])
            refine h1.trans ?_
            have h3 : (avail.map Prod.fst).Perm
                (entry.1 :: (avail.eraseIdx idx).map Prod.fst) := by
              have hx := (perm_cons_eraseIdx avail idx entry hget).map Prod.fst
              simpa using hx
            have h4 : ((acc ++ [(source.block_index, entry.1)]).map Prod.snd ++
                  (avail.eraseIdx idx).map Prod.fst) =
                acc.map Prod.snd ++ (entry.1 :: (avail.eraseIdx idx).map Prod.fst) := by
              simp
            rw [h4]
            exact List.Perm.append_left _ h3.symm
        · rw [matchLoop_step_nonpos source rest avail acc idx htok hbs hpos]
          exact ih avail acc

/-! ### Claim theorems: Block Segmenter -/

/-- C1: for every input text with balanced braces, segmentation succeeds and
reconstructing its output (prelude, then fragment contents in fragment order,
then postlude, for every block in block order) reproduces the original input
text exactly, byte for byte, comments and blank lines included. -/
theorem segmenter_roundtrip_exact (text : List Char) (h : bracesBalanced text) :
    ∃ cfg, parseCaddyfileText text = some cfg ∧ renderParsedConfig cfg = text := by
  obtain ⟨cfg, hcfg⟩ := balanced_parses text h
  exact ⟨cfg, hcfg, parse_sound text cfg hcfg⟩

theorem segmenter_roundtrip_exact_witness :
    bracesBalanced ("# top\na.example \x7b\n  respond \"ok\"\n\x7d\n".toList) ∧
    ∃ cfg,
      parseCaddyfileText ("# top\na.example \x7b\n  respond \"ok\"\n\x7d\n".toList) = some cfg ∧
      renderParsedConfig cfg = "# top\na.example \x7b\n  respond \"ok\"\n\x7d\n".toList :=
  ⟨by decide, segmenter_roundtrip_exact _ (by decide)⟩

/-- C2 counterexample: on "a \x7b\x7d\n#c\nb \x7b\x7d\n" the filler between
the two blocks (a newline plus the comment line) is attached as the prelude
of the second block, while the first block's postlude stays empty — refuting
the claim that inter-block filler becomes the postlude of the preceding
block. -/
theorem segmenter_filler_counterexample :
    (parseCaddyfileText ("a \x7b\x7d\n#c\nb \x7b\x7d\n".toList)).map
        (fun cfg => (cfg.blocks.map ParsedBlock.raw_postlude,
                     cfg.blocks.map ParsedBlock.raw_prelude)) =
      some ([[], "\n".toList], [[], "\n#c\n".toList]) := by decide

/-- C2 (amended): the segmenter attaches whitespace/comment filler to block
preludes, not to the preceding block's postlude: in every successful parse,
every block's prelude is pure filler (whitespace and #-led comment lines),
and every block except the last has an empty postlude (only trailing text
after the last block lands in a postlude; the synthetic no-brace block also
keeps its text in the postlude). -/
theorem segmenter_filler_placement (text : List Char) (cfg : ParsedConfig)
    (h : parseCaddyfileText text = some cfg) :
    (∀ b ∈ cfg.blocks, IsFiller b.raw_prelude) ∧
    (∀ (i : Nat) (b : ParsedBlock), cfg.blocks[i]? = some b →
      i + 1 < cfg.blocks.length → b.raw_postlude = []) := by
  unfold parseCaddyfileText at h
  dsimp only at h
  split at h
  · simp at h
  · rename_i blocks pending hpl
    have hshape := parseLoop_blocks_shape _ _ _ _ _ hpl
    split at h
    · split at h
      · injection h with h2
        subst h2
        simp
      · injection h with h2
        subst h2
        refine ⟨?_, ?_⟩
        · intro b hb
          simp at hb
          subst hb
          rfl
        · intro i b hget hlt
          simp at hlt
    · injection h with h2
      subst h2
      rename_i hbne
      refine ⟨?_, ?_⟩
      · intro b hb
        have hmem : b.raw_prelude ∈
            (setLastPostlude blocks pending).map ParsedBlock.raw_prelude :=
          List.mem_map_of_mem _ hb
        rw [setLastPostlude_prelude] at hmem
        obtain ⟨b2, hb2, hpre⟩ := List.mem_map.mp hmem
        rw [← hpre]
        exact (hshape b2 hb2).2 (consume_isFiller text)
      · intro i b hget hlt
        rw [setLastPostlude_length] at hlt
        rw [setLastPostlude_getElem blocks pending i hlt] at hget
        obtain ⟨hlt2, hel⟩ := List.getElem?_eq_some.mp hget
        have hmem : b ∈ blocks := hel ▸ List.getElem_mem hlt2
        exact (hshape b hmem).1

theorem segmenter_filler_placement_witness :
    parseCaddyfileText ("a \x7b\x7d\n#c\nb \x7b\x7d\n".toList) =
      some
        { blocks :=
          [ { labels := ["a"]
              is_global := false
              raw_prelude := []
              raw_postlude := []
              fragments :=
                [ { kind := "header", content := "a \x7b".toList },
                  { kind := "body", content := [] },
                  { kind := "footer", content := "\x7d".toList } ] },
            { labels := ["b"]
              is_global := false
              raw_prelude := "\n#c\n".toList
              raw_postlude := "\n".toList
              fragments :=
                [ { kind := "header", content := "b \x7b".toList },
                  { kind := "body", content := [] },
                  { kind := "footer", content := "\x7d".toList } ] } ] } ∧
    (∀ b ∈ (parseCaddyfileText ("a \x7b\x7d\n#c\nb \x7b\x7d\n".toList)).getD
        { blocks := [] } |>.blocks, IsFiller b.raw_prelude) ∧
    (∀ (i : Nat) (b : ParsedBlock),
      ((parseCaddyfileText ("a \x7b\x7d\n#c\nb \x7b\x7d\n".toList)).getD
        { blocks := [] }).blocks[i]? = some b →
      i + 1 < ((parseCaddyfileText ("a \x7b\x7d\n#c\nb \x7b\x7d\n".toList)).getD
        { blocks := [] }).blocks.length → b.raw_postlude = []) :=
  ⟨by decide,
    segmenter_filler_placement ("a \x7b\x7d\n#c\nb \x7b\x7d\n".toList)
      ((parseCaddyfileText ("a \x7b\x7d\n#c\nb \x7b\x7d\n".toList)).getD { blocks := [] })
      (by decide)⟩

/-- C8 counterexample: the text "\x7d" (a stray closing brace) has unbalanced
braces, yet segmentation succeeds (the text is absorbed into a synthetic
block) — refuting the claim that every unbalanced input fails with a parse
error. -/
theorem segmenter_unbalanced_counterexample :
    ¬ bracesBalanced [braceClose] ∧ parseCaddyfileText [braceClose] ≠ none := by
  decide

/-- C8 (amended): unbalanced braces are the only cause of segmentation
failure — whenever parse_caddyfile_text raises (returns none here), the
input's braces are unbalanced, and no partial result is produced (the
failure yields no block list at all).  The converse does not hold: stray
closing braces or braces inside inter-block comments parse successfully. -/
theorem segmenter_failure_only_unbalanced (text : List Char)
    (h : parseCaddyfileText text = none) : ¬ bracesBalanced text := by
  intro hb
  obtain ⟨cfg, hcfg⟩ := balanced_parses text hb
  rw [h] at hcfg
  exact Option.noConfusion hcfg

theorem segmenter_failure_only_unbalanced_witness :
    parseCaddyfileText [braceOpen] = none ∧ ¬ bracesBalanced [braceOpen] :=
  ⟨by decide, segmenter_failure_only_unbalanced [braceOpen] (by decide)⟩

/-- C10: brace matching counts every brace character in a block body,
including those inside #-led comment lines: on "a \x7b\n# \x7b\n\x7d\n"
(whose braces balance if comment content is ignored) the unpaired opening
brace inside the comment makes depth-counting miss the visually matching
closing brace, and segmentation raises a parse error. -/
theorem segmenter_counts_comment_braces :
    parseCaddyfileText ("a \x7b\n# \x7b\n\x7d\n".toList) = none := by decide

/-! ### Claim theorems: Structural Digest path scrubbing -/

/-- C4: for any two route payloads that are identical except that a
file_server handler's hide list names, in one, the first snapshot's own
backing path and, in the other, the second snapshot's own path (the second
payload is substOwn of the first; the second path is nonempty and does not
already occur as a foreign hide entry), the normalised fragments are equal:
each snapshot's own path is replaced by the fixed sentinel before the
sorted-key serialisation that the structural digests hash. -/
theorem scrub_own_path_normalised_equal (j : JVal) (p1 p2 : String)
    (hp2 : p2 ≠ "") (hno : hideMentions p2 j = false) :
    normaliseJsonFragment [p1] j =
      normaliseJsonFragment [p2] (substOwn p1 p2 j) := by
  unfold normaliseJsonFragment
  have h := scrub_subst_main p1 p2 hp2 (sizeOf j) j (le_refl _) hno
  simp [h]

theorem scrub_own_path_normalised_equal_witness :
    ("/srv/Caddyfile" : String) ≠ "" ∧
    hideMentions "/srv/Caddyfile" (c4Payload "/etc/caddy/Caddyfile") = false ∧
    normaliseJsonFragment ["/etc/caddy/Caddyfile"] (c4Payload "/etc/caddy/Caddyfile") =
      normaliseJsonFragment ["/srv/Caddyfile"]
        (substOwn "/etc/caddy/Caddyfile" "/srv/Caddyfile"
          (c4Payload "/etc/caddy/Caddyfile")) :=
  ⟨by decide, by decide,
    scrub_own_path_normalised_equal (c4Payload "/etc/caddy/Caddyfile")
      "/etc/caddy/Caddyfile" "/srv/Caddyfile" (by decide) (by decide)⟩

/-! ### Claim theorems: Token Matcher -/

/-- C5 counterexample: with one source block (tokens "a") and two distinct
candidate blocks whose blobs both contain "a" (equal scores), the greedy
matcher picks whichever tied candidate comes first in list order, so
reordering the candidate list changes the assignment — refuting stability
under reordering as stated. -/
theorem token_matcher_counterexample :
    (matchBlocksByTokens [mkKeyBlock 0 ["a"]]
        [mkKeyBlock 1 ["a"], mkKeyBlock 2 ["a"]]).1 = [(0, mkKeyBlock 1 ["a"])] ∧
    (matchBlocksByTokens [mkKeyBlock 0 ["a"]]
        [mkKeyBlock 2 ["a"], mkKeyBlock 1 ["a"]]).1 = [(0, mkKeyBlock 2 ["a"])] ∧
    mkKeyBlock 1 ["a"] ≠ mkKeyBlock 2 ["a"] ∧
    ([mkKeyBlock 2 ["a"], mkKeyBlock 1 ["a"]]).Perm
      [mkKeyBlock 1 ["a"], mkKeyBlock 2 ["a"]] := by
  have htok : blockTokens (mkKeyBlock 0 ["a"]) = ["a"] := by decide
  have hblob1 : blockSearchBlob (mkKeyBlock 1 ["a"]) = "a" := by decide
  have hblob2 : blockSearchBlob (mkKeyBlock 2 ["a"]) = "a" := by decide
  have hc1 : List.countP (fun t => t ≠ "" && strContains "a" t) (["a"] : List String)
      = 1 := by decide
  have hs1 : tokenOverlapScore ["a"] "a" = 1 := by
    unfold tokenOverlapScore
    rw [if_neg (by decide), if_neg (by decide), hc1]
    norm_num
  have hbs : ∀ (u v : SnapshotBlockText),
      bestScan ["a"] [(u, "a"), (v, "a")] 0 (none, 0) = (some 0, 1) := by
    intro u v
    simp [bestScan, hs1, zero_lt_one, lt_self_iff_false]
  have hml : ∀ (u v : SnapshotBlockText),
      matchLoop [mkKeyBlock 0 ["a"]] [(u, "a"), (v, "a")] [] = ([(0, u)], [(v, "a")]) := by
    intro u v
    rw [matchLoop_step_pop (mkKeyBlock 0 ["a"]) [] [(u, "a"), (v, "a")] [] 0 (u, "a")
      (by rw [htok]; decide) (by rw [htok, hbs]) (by rw [htok, hbs]; norm_num) (by simp)]
    simp [matchLoop, List.eraseIdx, mkKeyBlock]
  have hmb : ∀ (u v : SnapshotBlockText), blockSearchBlob u = "a" → blockSearchBlob v = "a" →
      matchBlocksByTokens [mkKeyBlock 0 ["a"]] [u, v] = ([(0, u)], [v]) := by
    intro u v hu hv
    unfold matchBlocksByTokens
    rw [if_neg (by simp)]
    dsimp only
    rw [show ([u, v].map fun b => (b, blockSearchBlob b)) = [(u, "a"), (v, "a")] from by
      simp [hu, hv]]
    rw [hml]
    rfl
  refine ⟨?_, ?_, by decide, ?_⟩
  · rw [hmb _ _ hblob1 hblob2]
  · rw [hmb _ _ hblob2 hblob1]
  · exact List.Perm.swap _ _ _

/-- C5 (amended): the greedy token matcher never matches a candidate block
twice — the matched candidates together with the leftovers are exactly the
target list (as a multiset) — and the assignment is stable under
reordering of the candidate list provided that, for each source block, no
two distinct candidates tie on a positive score; with ties the first
best-scoring candidate in current pool order is taken, which is order
dependent. -/
theorem token_matcher_stability
    (sources targets1 targets2 : List SnapshotBlockText)
    (hperm : targets1.Perm targets2)
    (hties : ∀ s ∈ sources, ∀ t1 ∈ targets1, ∀ t2 ∈ targets1,
      tokenOverlapScore (blockTokens s) (blockSearchBlob t1) =
        tokenOverlapScore (blockTokens s) (blockSearchBlob t2) →
      t1 = t2 ∨ tokenOverlapScore (blockTokens s) (blockSearchBlob t1) ≤ 0) :
    (matchBlocksByTokens sources targets1).1 = (matchBlocksByTokens sources targets2).1 ∧
    (matchBlocksByTokens sources targets1).2.Perm (matchBlocksByTokens sources targets2).2 ∧
    ((matchBlocksByTokens sources targets1).1.map Prod.snd ++
      (matchBlocksByTokens sources targets1).2).Perm targets1 := by
  by_cases hguard : sources.isEmpty || targets1.isEmpty
  · have hguard2 : (sources.isEmpty || targets2.isEmpty) = true := by
      rcases Bool.or_eq_true_iff.mp hguard with h | h
      · simp [h]
      · have : targets2.isEmpty = true := by
          rw [List.isEmpty_iff] at h ⊢
          subst h
          exact hperm.symm.eq_nil
        simp [this]
    unfold matchBlocksByTokens
    rw [if_pos hguard, if_pos hguard2]
    exact ⟨rfl, hperm, by simp⟩
  · have hguard2 : ¬ (sources.isEmpty || targets2.isEmpty) = true := by
      intro hc
      apply hguard
      rcases Bool.or_eq_true_iff.mp hc with h | h
      · simp [h]
      · have : targets1.isEmpty = true := by
          rw [List.isEmpty_iff] at h ⊢
          subst h
          exact hperm.eq_nil
        simp [this]
    unfold matchBlocksByTokens
    rw [if_neg hguard, if_neg hguard2]
    dsimp only
    have hpermE : (targets1.map fun b => (b, blockSearchBlob b)).Perm
        (targets2.map fun b => (b, blockSearchBlob b)) := hperm.map _
    have hties2 : ∀ s ∈ sources,
        ∀ e1 ∈ (targets1.map fun b => (b, blockSearchBlob b)),
        ∀ e2 ∈ (targets1.map fun b => (b, blockSearchBlob b)),
        tokenOverlapScore (blockTokens s) e1.2 = tokenOverlapScore (blockTokens s) e2.2 →
        e1 = e2 ∨ tokenOverlapScore (blockTokens s) e1.2 ≤ 0 := by
      intro s hs e1 he1 e2 he2 heq
      obtain ⟨b1, hb1, rfl⟩ := List.mem_map.mp he1
      obtain ⟨b2, hb2, rfl⟩ := List.mem_map.mp he2
      rcases hties s hs b1 hb1 b2 hb2 heq with h | h
      · left; rw [h]
      · right; exact h
    obtain ⟨heq, hpermR⟩ := matchLoop_stable sources
      (targets1.map fun b => (b, blockSearchBlob b))
      (targets2.map fun b => (b, blockSearchBlob b)) [] hpermE hties2
    refine ⟨heq, hpermR.map Prod.fst, ?_⟩
    have hacc := matchLoop_accounting sources
      (targets1.map fun b => (b, blockSearchBlob b)) []
    have hmap : ∀ (l : List SnapshotBlockText),
        (l.map fun b => (b, blockSearchBlob b)).map Prod.fst = l := by
      intro l
      induction l with
      | nil => rfl
      | cons a t ih => simp only [List.map_cons, ih]
    simp only [List.map_nil, List.nil_append, hmap] at hacc
    exact hacc

theorem token_matcher_stability_witness :
    ([mkKeyBlock 3 ["b"], mkKeyBlock 1 ["a"]]).Perm
      [mkKeyBlock 1 ["a"], mkKeyBlock 3 ["b"]] ∧
    ((matchBlocksByTokens [mkKeyBlock 0 ["a"]] [mkKeyBlock 1 ["a"], mkKeyBlock 3 ["b"]]).1 =
      (matchBlocksByTokens [mkKeyBlock 0 ["a"]] [mkKeyBlock 3 ["b"], mkKeyBlock 1 ["a"]]).1 ∧
    (matchBlocksByTokens [mkKeyBlock 0 ["a"]] [mkKeyBlock 1 ["a"], mkKeyBlock 3 ["b"]]).2.Perm
      (matchBlocksByTokens [mkKeyBlock 0 ["a"]] [mkKeyBlock 3 ["b"], mkKeyBlock 1 ["a"]]).2 ∧
    ((matchBlocksByTokens [mkKeyBlock 0 ["a"]]
        [mkKeyBlock 1 ["a"], mkKeyBlock 3 ["b"]]).1.map Prod.snd ++
      (matchBlocksByTokens [mkKeyBlock 0 ["a"]]
        [mkKeyBlock 1 ["a"], mkKeyBlock 3 ["b"]]).2).Perm
      [mkKeyBlock 1 ["a"], mkKeyBlock 3 ["b"]]) := by
  have htok : blockTokens (mkKeyBlock 0 ["a"]) = ["a"] := by decide
  have hblobA : blockSearchBlob (mkKeyBlock 1 ["a"]) = "a" := by decide
  have hblobB : blockSearchBlob (mkKeyBlock 3 ["b"]) = "b" := by decide
  have hcA : List.countP (fun t => t ≠ "" && strContains "a" t) (["a"] : List String)
      = 1 := by decide
  have hcB : List.countP (fun t => t ≠ "" && strContains "b" t) (["a"] : List String)
      = 0 := by decide
  have hsA : tokenOverlapScore ["a"] "a" = 1 := by
    unfold tokenOverlapScore
    rw [if_neg (by decide), if_neg (by decide), hcA]
    norm_num
  have hsB : tokenOverlapScore ["a"] "b" = 0 := by
    unfold tokenOverlapScore
    rw [if_neg (by decide), if_neg (by decide), hcB]
    norm_num
  have hties : ∀ s ∈ [mkKeyBlock 0 ["a"]],
      ∀ t1 ∈ [mkKeyBlock 1 ["a"], mkKeyBlock 3 ["b"]],
      ∀ t2 ∈ [mkKeyBlock 1 ["a"], mkKeyBlock 3 ["b"]],
      tokenOverlapScore (blockTokens s) (blockSearchBlob t1) =
        tokenOverlapScore (blockTokens s) (blockSearchBlob t2) →
      t1 = t2 ∨ tokenOverlapScore (blockTokens s) (blockSearchBlob t1) ≤ 0 := by
    intro s hs t1 ht1 t2 ht2 heq
    simp only [List.mem_cons, List.not_mem_nil, or_false] at hs ht1 ht2
    subst hs
    rcases ht1 with rfl | rfl <;> rcases ht2 with rfl | rfl
    · left; rfl
    · exfalso
      rw [htok, hblobA, hblobB, hsA, hsB] at heq
      norm_num at heq
    · exfalso
      rw [htok, hblobA, hblobB, hsA, hsB] at heq
      norm_num at heq
    · left; rfl
  exact ⟨List.Perm.swap _ _ _, token_matcher_stability [mkKeyBlock 0 ["a"]]
    [mkKeyBlock 1 ["a"], mkKeyBlock 3 ["b"]] [mkKeyBlock 3 ["b"], mkKeyBlock 1 ["a"]]
    (List.Perm.swap _ _ _) hties⟩

/-! ### Claim theorems: JSON Route Normalizer -/

/-- C7 counterexample: on the JSON document with apps.http = 5 — an
unexpectedly-shaped document with a wrong-typed (non-object) http app —
blocks_from_caddy_json raises AttributeError (http_app.get "servers" on an
int) instead of degrading to a default, so no block list is returned. -/
theorem json_normalizer_counterexample :
    blocksFromCaddyJson (JVal.obj [("apps", JVal.obj [("http", JVal.int 5)])]) = none := by
  decide

/-- C7 (amended): the JSON Route Normalizer is not total — wrong-typed
truthy values in certain positions (a non-object http app, server entry,
route, or matcher; a truthy non-iterable host/listen/routes value) raise —
but missing or falsy fields degrade to empty lists/defaults, and whenever
normalization completes without raising, a nonempty block list is returned
(an empty document still yields the synthetic global block). -/
theorem json_normalizer_nonempty (data : JVal) (bs : List ParsedBlock)
    (h : blocksFromCaddyJson data = some bs) : bs ≠ [] := by
  unfold blocksFromCaddyJson at h
  cases data with
  | null => simp at h
  | bool b => simp at h
  | int n => simp at h
  | str s => simp at h
  | arr items => simp at h
  | obj dfields =>
    dsimp only at h
    split at h
    · split at h
      · simp at h
      · rename_i blocks hloop
        split at h
        · injection h with h2
          subst h2
          simp
        · injection h with h2
          subst h2
          rename_i hne
          intro hc
          subst hc
          simp at hne
    · simp at h

theorem json_normalizer_nonempty_witness :
    blocksFromCaddyJson (JVal.obj [("apps", JVal.obj [])]) =
      some [ { labels := []
               is_global := true
               raw_prelude := []
               raw_postlude := []
               fragments := [{ kind := "json_config"
                               content := "\x7b\"apps\":\x7b\x7d\x7d".toList }] } ] ∧
    ([ ({ labels := []
          is_global := true
          raw_prelude := []
          raw_postlude := []
          fragments := [{ kind := "json_config"
                          content := "\x7b\"apps\":\x7b\x7d\x7d".toList }] } : ParsedBlock) ] :
        List ParsedBlock) ≠ [] :=
  ⟨by decide,
    json_normalizer_nonempty (JVal.obj [("apps", JVal.obj [])])
      [ { labels := []
          is_global := true
          raw_prelude := []
          raw_postlude := []
          fragments := [{ kind := "json_config"
                          content := "\x7b\"apps\":\x7b\x7d\x7d".toList }] } ]
      (by decide)⟩

/-! ### Digest-engine lemmas (C3, C9) -/

theorem enumHash_keys (h : String → String) :
    ∀ (l : List String) (i : Nat),
      (enumHash h i l).map Prod.fst = List.range' i l.length := by
  intro l
  induction l with
  | nil => intro i; rfl
  | cons b rest ih =>
      intro i
      simp [enumHash, List.range'_succ, ih]

theorem map_pair_fst (f : SBlock → Nat) (g : SBlock → String) :
    ∀ l : List SBlock, (l.map fun b => (f b, g b)).map Prod.fst = l.map f := by
  intro l
  induction l with
  | nil => rfl
  | cons a t ih => simp [ih]

/-! ### Claim theorems: Structural Digest comparison -/

/-- C3: compare_snapshots is symmetric in status; the status is missing
iff at least one side is absent; with both sides present the status is
match exactly when the two structural digests are equal and different
otherwise — for every digest function and adapter oracle. -/
theorem snapshot_compare_status
    (h : String → String)
    (adaptEntries : Snapshot → Option (List (List String × String)))
    (left right : Option Snapshot) (lk rk : SnapshotKind) :
    (compareSnapshots h adaptEntries left right lk rk).status =
      (compareSnapshots h adaptEntries right left rk lk).status ∧
    ((compareSnapshots h adaptEntries left right lk rk).status = "missing" ↔
      left = none ∨ right = none) ∧
    (∀ l r, left = some l → right = some r →
      ((compareSnapshots h adaptEntries left right lk rk).status = "match" ↔
        structuralHash h adaptEntries l = structuralHash h adaptEntries r)) ∧
    (∀ l r, left = some l → right = some r →
      ((compareSnapshots h adaptEntries left right lk rk).status = "different" ↔
        structuralHash h adaptEntries l ≠ structuralHash h adaptEntries r)) := by
  cases left with
  | none =>
      refine ⟨?_, ?_, ?_, ?_⟩
      · cases right <;> rfl
      · cases right <;> simp [compareSnapshots]
      · intro l r h1 h2
        exact absurd h1 (by simp)
      · intro l r h1 h2
        exact absurd h1 (by simp)
  | some l =>
      cases right with
      | none =>
          refine ⟨rfl, by simp [compareSnapshots], ?_, ?_⟩
          · intro l' r h1 h2
            exact absurd h2 (by simp)
          · intro l' r h1 h2
            exact absurd h2 (by simp)
      | some r =>
          have hms : ("match" : String) ≠ "missing" := by decide
          have hds : ("different" : String) ≠ "missing" := by decide
          have hmd : ("match" : String) ≠ "different" := by decide
          by_cases hx : structuralHash h adaptEntries l = structuralHash h adaptEntries r
          · refine ⟨?_, ?_, ?_, ?_⟩
            · simp only [compareSnapshots]
              rw [if_pos hx, if_pos hx.symm]
            · simp only [compareSnapshots]
              rw [if_pos hx]
              simp [hms]
            · intro l' r' h1 h2
              obtain rfl := Option.some.inj h1
              obtain rfl := Option.some.inj h2
              simp only [compareSnapshots]
              rw [if_pos hx]
              simp [hx]
            · intro l' r' h1 h2
              obtain rfl := Option.some.inj h1
              obtain rfl := Option.some.inj h2
              simp only [compareSnapshots]
              rw [if_pos hx]
              simp [hx, hmd]
          · have hx' : ¬ structuralHash h adaptEntries r = structuralHash h adaptEntries l :=
              fun hc => hx hc.symm
            refine ⟨?_, ?_, ?_, ?_⟩
            · simp only [compareSnapshots]
              rw [if_neg hx, if_neg hx']
            · simp only [compareSnapshots]
              rw [if_neg hx]
              simp [hds]
            · intro l' r' h1 h2
              obtain rfl := Option.some.inj h1
              obtain rfl := Option.some.inj h2
              simp only [compareSnapshots]
              rw [if_neg hx]
              simp [hx, Ne.symm hmd]
            · intro l' r' h1 h2
              obtain rfl := Option.some.inj h1
              obtain rfl := Option.some.inj h2
              simp only [compareSnapshots]
              rw [if_neg hx]
              simp [hx]

theorem snapshot_compare_status_witness :
    (compareSnapshots (fun s => s) (fun _ => none) (some c3SnapA) (some c3SnapA)
        SnapshotKind.caddyfile SnapshotKind.caddyfile).status = "match" ∧
    (compareSnapshots (fun s => s) (fun _ => none) (some c3SnapA) none
        SnapshotKind.caddyfile SnapshotKind.live).status = "missing" :=
  ⟨((snapshot_compare_status (fun s => s) (fun _ => none) (some c3SnapA) (some c3SnapA)
      SnapshotKind.caddyfile SnapshotKind.caddyfile).2.2.1 c3SnapA c3SnapA rfl rfl).mpr rfl,
   ((snapshot_compare_status (fun s => s) (fun _ => none) (some c3SnapA) none
      SnapshotKind.caddyfile SnapshotKind.live).2.1).mpr (Or.inr rfl)⟩

/-! ### Claim theorems: per-block digest map keys -/

/-- C9 counterexample: on a live snapshot with one block (block_index 5,
canonical label key ["b.example.com"]) whose route-level normalisation
succeeds, the per-block digest map is keyed by POSITION in the ordered
blob list — its key list is [0], which is neither the canonical label key
nor the block index — refuting the claim that route mode keys the map by
canonical label key. -/
theorem block_digest_keys_counterexample :
    snapshotRouteBlobs (fun _ => none) c9Snap = some ["\x7b\"handle\":[]\x7d"] ∧
    (blockHashes (fun s => s) (fun _ => none) c9Snap).map Prod.fst = [0] ∧
    canonicalBlockKey c9Block = ["b.example.com"] ∧
    c9Snap.server_blocks.map (fun b => b.block_index) = [5] := by
  refine ⟨?_, ?_, ?_, ?_⟩ <;> rfl

/-- C9 (amended): when route-level normalisation succeeds the per-block
digest map is keyed by position in the ordered route-blob list (0, 1, ...,
one key per blob); when it fails (literal mode) the map is keyed by
block_index, one entry per block in block_index order — for every digest
function and adapter oracle. -/
theorem block_digest_keys (h : String → String)
    (adaptEntries : Snapshot → Option (List (List String × String)))
    (s : Snapshot) :
    (∀ blobs, snapshotRouteBlobs adaptEntries s = some blobs →
      (blockHashes h adaptEntries s).map Prod.fst = List.range blobs.length) ∧
    (snapshotRouteBlobs adaptEntries s = none →
      (blockHashes h adaptEntries s).map Prod.fst =
        (sortedBlocks s.server_blocks).map fun b => b.block_index) := by
  constructor
  · intro blobs hb
    simp only [blockHashes, hb]
    rw [List.range_eq_range']
    exact enumHash_keys h blobs 0
  · intro hb
    simp only [blockHashes, hb]
    exact map_pair_fst (fun b => b.block_index)
      (fun b => h (dumpsD (blockPayload b))) (sortedBlocks s.server_blocks)

theorem block_digest_keys_witness :
    ((blockHashes (fun s => s) (fun _ => none) c9Snap).map Prod.fst =
      List.range (["\x7b\"handle\":[]\x7d"] : List String).length) ∧
    ((blockHashes (fun s => s) (fun _ => none) c9SnapLit).map Prod.fst =
      (sortedBlocks c9SnapLit.server_blocks).map fun b => b.block_index) :=
  ⟨(block_digest_keys (fun s => s) (fun _ => none) c9Snap).1
      ["\x7b\"handle\":[]\x7d"] (by decide),
   (block_digest_keys (fun s => s) (fun _ => none) c9SnapLit).2 (by decide)⟩

/-! ### Claim theorems: Route Renderer -/

/-- C6: a static-response handler whose headers carry a Location value,
whose status_code is one of the redirect codes (301/302/303/307/308,
e.g. 308) and which has no (truthy) body renders as exactly one line
"redir <location> <status>" at the current indent — not a respond line;
and when a (truthy) body is present, it renders as a single respond line
instead. -/
theorem static_response_redirect_collapse
    (entry : List (String × JVal)) (indent : Nat) (hfields : List (String × JVal))
    (hh : jOrElse (jGet entry "headers") (JVal.obj []) = JVal.obj hfields) :
    (∀ loc code, firstHeaderValue hfields "Location" = some loc →
      (jGet entry "status_code").getD JVal.null = JVal.int code →
      REDIRECT_CODES.contains code = true →
      jTruthy (jOrElse (jGet entry "body") ((jGet entry "content").getD JVal.null)) = false →
      renderStaticResponse entry indent =
        some [indentStr indent ++ "redir " ++ loc ++ " " ++ toString code]) ∧
    (jTruthy (jOrElse (jGet entry "body") ((jGet entry "content").getD JVal.null)) = true →
      ∃ rest, renderStaticResponse entry indent =
        some [indentStr indent ++ ("respond" ++ rest)]) := by
  constructor
  · intro loc code hloc hsc hcode hbody
    unfold renderStaticResponse
    rw [hh]
    have hmem : code ∈ REDIRECT_CODES := by simpa using hcode
    simp [hloc, hsc, hbody, hmem]
  · intro hbody
    have hjoin : ∀ (a : String) (xs : List String),
        ∃ rest, joinPieces (a :: xs) = a ++ rest := by
      intro a xs
      cases xs with
      | nil => exact ⟨"", by simp [joinPieces]⟩
      | cons x rest2 =>
        exact ⟨" " ++ joinPieces (x :: rest2), by
          rw [joinPieces]
          rw [String.append_assoc]⟩
    have hshape : ∀ statusCode,
        ∃ rest, respondLine
            (jOrElse (jGet entry "body") ((jGet entry "content").getD JVal.null))
            statusCode indent =
          indentStr indent ++ ("respond" ++ rest) := by
      intro statusCode
      unfold respondLine
      obtain ⟨rest, hrest⟩ := hjoin "respond"
        ((if jTruthy (jOrElse (jGet entry "body") ((jGet entry "content").getD JVal.null))
            then [pyQuote (pyStr (jOrElse (jGet entry "body")
              ((jGet entry "content").getD JVal.null)))] else [])
          ++ (if jTruthy statusCode then [pyStr statusCode] else []))
      exact ⟨rest, by rw [show (["respond"] : List String) ++ _ ++ _ =
        "respond" :: ((if jTruthy (jOrElse (jGet entry "body")
            ((jGet entry "content").getD JVal.null))
          then [pyQuote (pyStr (jOrElse (jGet entry "body")
            ((jGet entry "content").getD JVal.null)))] else [])
          ++ (if jTruthy statusCode then [pyStr statusCode] else [])) from by simp, hrest]⟩
    have hfin : renderStaticResponse entry indent
        = some [respondLine
            (jOrElse (jGet entry "body") ((jGet entry "content").getD JVal.null))
            ((jGet entry "status_code").getD JVal.null) indent] := by
      unfold renderStaticResponse
      rw [hh]
      dsimp only
      split
      · simp [hbody]
      · rfl
    obtain ⟨rest, hrest⟩ := hshape ((jGet entry "status_code").getD JVal.null)
    exact ⟨rest, by rw [hfin, hrest]⟩

theorem static_response_redirect_collapse_witness :
    jOrElse (jGet c6Entry "headers") (JVal.obj []) =
      JVal.obj [("Location", JVal.arr [JVal.str "https://example.com/"])] ∧
    firstHeaderValue [("Location", JVal.arr [JVal.str "https://example.com/"])] "Location" =
      some "https://example.com/" ∧
    (jGet c6Entry "status_code").getD JVal.null = JVal.int 308 ∧
    REDIRECT_CODES.contains 308 = true ∧
    jTruthy (jOrElse (jGet c6Entry "body") ((jGet c6Entry "content").getD JVal.null)) = false ∧
    renderStaticResponse c6Entry 4 =
      some [indentStr 4 ++ "redir " ++ "https://example.com/" ++ " " ++ toString (308 : Int)] :=
  ⟨rfl, rfl, rfl, by decide, rfl,
    (static_response_redirect_collapse c6Entry 4
        [("Location", JVal.arr [JVal.str "https://example.com/"])] rfl).1
      "https://example.com/" 308 rfl rfl (by decide) rfl⟩

end CaddyTui
